import Mathlib

/-!
GraphLab trace-generator verification

Shallow embedding of the GraphLab algorithm-trace generators and the
playback/synchronization components, together with proofs checking the
natural-language specification against the code.

JS data structures are modelled as follows:
* a string-keyed `Record` is an insertion-ordered association list
  (`List (String × α)`); assignment replaces an existing binding in place
  or appends a new one, matching JS property-update semantics;
* a JS `Set` is an insertion-ordered duplicate-free `List String`;
* JS numbers appearing in this code base are integers, modelled as `Int`
  (or `Nat` where the source value is structurally non-negative);
* loops that are not structurally recursive take explicit fuel; concrete
  runs are evaluated with ample fuel, and termination theorems show the
  chosen fuel suffices.
-/

set_option maxRecDepth 8000

namespace GraphLab

/-- Lookup in a JS record (association list): first binding wins. -/
def recGet? {α : Type} (r : List (String × α)) (k : String) : Option α :=
  match r.find? (fun kv => kv.1 == k) with
  | some kv => some kv.2
  | none => none

/-- `r[k] ?? d` — record lookup with a default for a missing key. -/
def recGetD {α : Type} (r : List (String × α)) (k : String) (d : α) : α :=
  (recGet? r k).getD d

/-- `r[k] = v` — JS record assignment: overwrite the existing binding in
place, else append a new binding (JS insertion order). -/
def recSet {α : Type} : List (String × α) → String → α → List (String × α)
  | [], k, v => [(k, v)]
  | kv :: rest, k, v =>
    if kv.1 = k then (k, v) :: rest else kv :: recSet rest k v

/-- Does the record have a binding for `k`? -/
def recHas {α : Type} (r : List (String × α)) (k : String) : Bool :=
  (recGet? r k).isSome

/-- `delete r[k]` — remove the binding for `k`. -/
def recDel {α : Type} (r : List (String × α)) (k : String) : List (String × α) :=
  r.filter (fun kv => kv.1 ≠ k)

/-- `set.add(x)` for a JS `Set` modelled as an insertion-ordered list. -/
def setAdd (s : List String) (x : String) : List String :=
  if x ∈ s then s else s ++ [x]

/-- A graph node (`Node` in `types.ts`); layout coordinates are carried
but play no algorithmic role. -/
structure GNode where
  id : String
  x : Int
  y : Int
deriving DecidableEq, Repr

/-- A weighted edge (`Edge` in `types.ts`). `from` is a Lean keyword, so
the field is written `src`; `dst` stands for `to`. -/
structure GEdge where
  src : String
  dst : String
  weight : Int
deriving DecidableEq, Repr

/-- `GraphData` from `types.ts` (the optional `layout`/`grid` facets are
not used by any claim and are omitted). -/
structure GraphData where
  nodes : List GNode
  adj : List (String × List String)
  edges : List GEdge
  directed : Bool := false
deriving Repr

/-- `graph.adj[u]`; a missing key yields `[]` (the spec's `GraphData`
contract makes `adj` total on node ids; absent keys would be malformed
input, which generators may fail on per §7 of the spec). -/
def adjGet (g : GraphData) (u : String) : List String :=
  recGetD g.adj u []

/-- `Object.keys(graph.adj)` in insertion order. -/
def adjKeys (g : GraphData) : List String :=
  g.adj.map (fun kv => kv.1)

/-! ## Ford-Fulkerson (`src/lib/animations/ford-fulkerson.ts`) -/

/-- The module's sample flow network (`graphData` in `ford-fulkerson.ts`). -/
def ffGraphData : GraphData :=
  { nodes := [⟨"S", 100, 200⟩, ⟨"A", 275, 100⟩, ⟨"B", 275, 300⟩,
              ⟨"C", 450, 100⟩, ⟨"D", 450, 300⟩, ⟨"T", 600, 200⟩],
    adj := [("S", ["A", "B"]), ("A", ["C", "D"]), ("B", ["D"]),
            ("C", ["T"]), ("D", ["T"]), ("T", [])],
    edges := [⟨"S", "A", 10⟩, ⟨"S", "B", 10⟩, ⟨"A", "C", 8⟩, ⟨"A", "D", 4⟩,
              ⟨"B", "D", 9⟩, ⟨"C", "T", 10⟩, ⟨"D", "T", 10⟩],
    directed := true }

/-- `getDirectedEdgeKey` from `ford-fulkerson.ts`. -/
def dirKey (f t : String) : String := f ++ "->" ++ t

/-- One emitted `Step` of the Ford-Fulkerson generator (only the fields
the module actually sets). -/
structure FFStep where
  description : String
  currentNode : Option String := none
  highlightedPath : Option (List String) := none
  flows : List (String × Int)
  dataStructure : List String
deriving Repr

/-- Initial `flows` record: both directions of every edge set to `0`. -/
def ffInitFlows (edges : List GEdge) : List (String × Int) :=
  edges.foldl (fun r e => recSet (recSet r (dirKey e.src e.dst) 0) (dirKey e.dst e.src) 0) []

/-- `capacities` record: forward capacity of every edge. -/
def ffCapacities (edges : List GEdge) : List (String × Int) :=
  edges.foldl (fun r e => recSet r (dirKey e.src e.dst) e.weight) []

/-- Neighbor candidates scanned in the augmenting-path BFS:
`[...(graph.adj[u] || []), ...Object.keys(graph.adj).filter(n => graph.adj[n].includes(u))]`. -/
def ffCandidates (g : GraphData) (u : String) : List String :=
  adjGet g u ++ (adjKeys g).filter (fun n => u ∈ adjGet g n)

/-- Inner `for` loop of the path-finding BFS: scan the candidate list,
recording parents and enqueueing; `Bool = true` signals the labelled
`break pathFinding` taken the moment the sink is enqueued. -/
def ffScan (caps flows : List (String × Int)) (endNode u : String) :
    List String → List (String × String) → List String → List String →
    (List (String × String) × List String × List String × Bool)
  | [], parent, visited, queue => (parent, visited, queue, false)
  | v :: vs, parent, visited, queue =>
    let cap := recGetD caps (dirKey u v) 0
    let fl := recGetD flows (dirKey u v) 0
    if v ∉ visited ∧ cap - fl > 0 then
      let parent' := recSet parent v u
      let visited' := setAdd visited v
      let queue' := queue ++ [v]
      if v = endNode then (parent', visited', queue', true)
      else ffScan caps flows endNode u vs parent' visited' queue'
    else ffScan caps flows endNode u vs parent visited queue

/-- The path-finding BFS (`while (queue.length > 0)` with the labelled
break); returns the parent record. -/
def ffBFS (g : GraphData) (caps flows : List (String × Int)) (endNode : String) :
    Nat → List String → List String → List (String × String) → List (String × String)
  | 0, _, _, parent => parent
  | _ + 1, [], _, parent => parent
  | fuel + 1, u :: rest, visited, parent =>
    match ffScan caps flows endNode u (ffCandidates g u) parent visited rest with
    | (parent', _, _, true) => parent'
    | (parent', visited', queue', false) => ffBFS g caps flows endNode fuel queue' visited' parent'

/-- Path reconstruction: walk the parent chain from the sink back to the
source, prepending (`path.unshift`). -/
def ffBuildPath (parent : List (String × String)) (startNode : String) :
    Nat → String → List String → List String
  | 0, curr, acc => curr :: acc
  | fuel + 1, curr, acc =>
    if curr = startNode then curr :: acc
    else ffBuildPath parent startNode fuel (recGetD parent curr curr) (curr :: acc)

/-- Minimum of a list of `Int`s (the JS fold starts from `Infinity`; an
augmenting path always has at least one edge, so the default is unused). -/
def listMinD (l : List Int) (d : Int) : Int :=
  match l with
  | [] => d
  | x :: xs => xs.foldl min x

/-- Consecutive pairs of a path. -/
def pathPairs : List String → List (String × String)
  | [] => []
  | [_] => []
  | u :: v :: rest => (u, v) :: pathPairs (v :: rest)

/-- Running state of the Ford-Fulkerson outer loop. -/
structure FFState where
  steps : List FFStep
  flows : List (String × Int)
  totalFlow : Int
deriving Repr

/-- `createStep` of `ford-fulkerson.ts` (the `flows` snapshot is a fresh
copy — Lean lists are values, matching the `{ ...flows }` spread). -/
def ffCreateStep (s : FFState) (desc : String) (path : Option (List String)) : FFState :=
  { s with steps := s.steps ++
      [{ description := desc, currentNode := none, highlightedPath := path,
         flows := s.flows, dataStructure := [toString s.totalFlow] }] }

/-- The `while (true)` augmenting loop of `generateSteps`. -/
def ffLoop (g : GraphData) (caps : List (String × Int)) (startNode endNode : String) :
    Nat → FFState → FFState
  | 0, s => s
  | fuel + 1, s =>
    let parent := ffBFS g caps s.flows endNode 100 [startNode] [startNode] []
    match recGet? parent endNode with
    | none =>
      ffCreateStep s "No more augmenting paths can be found. The flow is maximized." none
    | some _ =>
      let path := ffBuildPath parent startNode 100 endNode []
      let s := ffCreateStep s ("Found augmenting path: " ++ String.intercalate " → " path ++ " via BFS.") (some path)
      let pairs := pathPairs path
      let bottleneck := listMinD (pairs.map (fun uv =>
        recGetD caps (dirKey uv.1 uv.2) 0 - recGetD s.flows (dirKey uv.1 uv.2) 0)) 0
      let s := ffCreateStep s ("Path bottleneck is " ++ toString bottleneck ++ ". Pushing flow.") (some path)
      let flows' := pairs.foldl (fun fl uv =>
        let k := dirKey uv.1 uv.2
        let krev := dirKey uv.2 uv.1
        recSet (recSet fl k (recGetD fl k 0 + bottleneck)) krev (recGetD fl krev 0 - bottleneck)) s.flows
      let s := { s with flows := flows', totalFlow := s.totalFlow + bottleneck }
      let s := ffCreateStep s ("Flow augmented by " ++ toString bottleneck ++ ". Total flow is now " ++ toString s.totalFlow ++ ".") (some path)
      ffLoop g caps startNode endNode fuel s

/-- `generateSteps` of `ford-fulkerson.ts` (fuel 100 far exceeds the
number of augmentations on the sample network). -/
def ffGenerate (g : GraphData) (startNode endNode : String) : FFState :=
  let caps := ffCapacities g.edges
  let s0 : FFState := { steps := [], flows := ffInitFlows g.edges, totalFlow := 0 }
  let s0 := ffCreateStep s0 "Start Ford-Fulkerson. All flows are 0." none
  ffLoop g caps startNode endNode 100 s0

/-- The module's run: `generateSteps(graphData, 'S', 'T')`. -/
def ffRun : FFState := ffGenerate ffGraphData "S" "T"

/-- Final total flow of the sample run. -/
def ffFinalTotalFlow : Int := ffRun.totalFlow

/-- One expansion round of residual reachability: add every node that
some already-reached node can still push flow to. -/
def ffReachExpand (caps flows : List (String × Int)) (nodeIds : List String) (r : List String) :
    List String :=
  nodeIds.foldl (fun acc v =>
    if v ∈ acc then acc
    else if acc.any (fun u => recGetD caps (dirKey u v) 0 - recGetD flows (dirKey u v) 0 > 0)
    then acc ++ [v] else acc) r

/-- Set of nodes reachable from `s` in the residual graph of `flows`
(iterated to a fixpoint; `|V|` rounds suffice). -/
def ffResidualReach (caps flows : List (String × Int)) (nodeIds : List String) (s : String) :
    List String :=
  Nat.rec [s] (fun _ acc => ffReachExpand caps flows nodeIds acc) nodeIds.length

/-- Capacity of the s-t cut induced by residual reachability `r`: total
capacity of the original edges leaving `r`. -/
def ffCutCapacity (edges : List GEdge) (r : List String) : Int :=
  ((edges.filter (fun e => e.src ∈ r ∧ e.dst ∉ r)).map (fun e => e.weight)).sum

/-- The min-cut capacity computed from the final residual graph of the
sample run. -/
def ffMinCutFromResidual : Int :=
  ffCutCapacity ffGraphData.edges
    (ffResidualReach (ffCapacities ffGraphData.edges) ffRun.flows
      (ffGraphData.nodes.map (fun n => n.id)) "S")

/-- C1 (counterexample): the Ford-Fulkerson generator's final total flow
on the module's sample network is not 14 (it evaluates to 18), so the
claim as stated is false at its own sample input. -/
theorem ffSampleFlowNe14 : ¬ (ffFinalTotalFlow = 14) := by decide

/-- C1 (amended): the Ford-Fulkerson generator's final total flow on the
module's sample network is 18, and it equals the capacity of the s-t cut
obtained from the set of nodes reachable from S in the final residual
graph (max-flow/min-cut duality holds; only the value 14 was wrong). -/
theorem ffSampleMaxFlowMinCut :
    ffFinalTotalFlow = 18 ∧ ffMinCutFromResidual = ffFinalTotalFlow := by
  exact ⟨rfl, rfl⟩

/-! ## BFS (`src/lib/animations/bfs.ts`) -/

/-- The distance value type of `Step.distances`: a number or the `'∞'`
sentinel string. -/
inductive DVal where
  | inf : DVal
  | fin : Int → DVal
deriving DecidableEq, Repr

/-- The module's sample graph (`graphData` in `bfs.ts`; the same graph is
used by `shortest-path-unweighted.ts`). -/
def bfsGraphData : GraphData :=
  { nodes := [⟨"A", 100, 200⟩, ⟨"B", 250, 100⟩, ⟨"C", 250, 300⟩,
              ⟨"D", 400, 100⟩, ⟨"E", 400, 300⟩, ⟨"F", 550, 200⟩],
    adj := [("A", ["B", "C"]), ("B", ["A", "D"]), ("C", ["A", "E"]),
            ("D", ["B", "F"]), ("E", ["C", "F"]), ("F", ["D", "E"])],
    edges := [] }

/-- One emitted `Step` of the BFS generator. `bfs.ts` never writes a
`distances` field, so in every Step it emits the optional facet is
absent (`none`). -/
structure BfsStep where
  dataStructure : List String
  visited : List String
  currentNode : Option String
  neighbor : Option String
  description : String
  distances : Option (List (String × DVal)) := none
deriving DecidableEq, Repr

instance : Inhabited BfsStep :=
  ⟨{ dataStructure := [], visited := [], currentNode := none,
     neighbor := none, description := "" }⟩

/-- Inner `for (const neighbor of neighbors)` loop of `bfs.ts`. -/
def bfsInner (u : String) :
    List String → List String → List String → List BfsStep →
    (List String × List String × List BfsStep)
  | [], queue, visited, steps => (queue, visited, steps)
  | n :: ns, queue, visited, steps =>
    if n ∈ visited then bfsInner u ns queue visited steps
    else
      let visited' := visited ++ [n]
      let queue' := queue ++ [n]
      let steps' := steps ++
        [{ dataStructure := queue', visited := visited', currentNode := some u,
           neighbor := some n,
           description := "Node " ++ u ++ " explores neighbor " ++ n ++
             ". Add " ++ n ++ " to queue and mark as visited." }]
      bfsInner u ns queue' visited' steps'

/-- Outer `while (queue.length > 0)` loop of `bfs.ts`; `none` means the
fuel ran out before the queue drained (shown impossible below for the
fuel used by `bfsGenerateSteps`). -/
def bfsLoop (g : GraphData) :
    Nat → List String → List String → List BfsStep →
    Option (List String × List BfsStep)
  | _, [], visited, steps => some (visited, steps)
  | 0, _ :: _, _, _ => none
  | fuel + 1, u :: rest, visited, steps =>
    let steps := steps ++
      [{ dataStructure := rest, visited := visited, currentNode := some u,
         neighbor := none, description := "Dequeue " ++ u ++ " to process it." }]
    match bfsInner u (adjGet g u) rest visited steps with
    | (queue', visited', steps') => bfsLoop g fuel queue' visited' steps'

/-- Every id that occurs in some adjacency list. -/
def adjVals (g : GraphData) : List String :=
  (g.adj.map (fun kv => kv.2)).flatten

/-- Fuel that always suffices for the BFS outer loop: one more than the
total number of adjacency-list entries. -/
def bfsFuel (g : GraphData) : Nat := 1 + (adjVals g).length

/-- `generateSteps` of `bfs.ts`. -/
def bfsGenerateSteps (g : GraphData) (startNode : String) : Option (List BfsStep) :=
  let queue := [startNode]
  let visited := [startNode]
  let steps : List BfsStep :=
    [{ dataStructure := queue, visited := visited, currentNode := none,
       neighbor := none,
       description := "Start BFS from node " ++ startNode ++
         ". Add it to the queue and mark as visited." }]
  match bfsLoop g (bfsFuel g) queue visited steps with
  | none => none
  | some (visited, steps) =>
    some (steps ++
      [{ dataStructure := [], visited := visited, currentNode := none,
         neighbor := none, description := "Queue is empty. BFS traversal complete." }])

/-- The module's run on its sample, `generateSteps(graphData, 'A')`. -/
def bfsSampleSteps : List BfsStep := (bfsGenerateSteps bfsGraphData "A").getD []

/-! ### BFS termination for every finite graph

The loop measure is `queue.length + (bound - visited.length)`: each outer
iteration dequeues one node and every enqueue adds a fresh node to
`visited`, which is a duplicate-free sublist of `start :: adjVals g`. -/

theorem recGet?_mem_sndList {α : Type} (r : List (String × α)) (k : String) (v : α)
    (h : recGet? r k = some v) : v ∈ r.map (fun kv => kv.2) := by
  unfold recGet? at h
  cases hf : r.find? (fun kv => kv.1 == k) with
  | none => rw [hf] at h; exact absurd h (by simp)
  | some kv =>
    rw [hf] at h
    have hmem := List.mem_of_find?_eq_some hf
    simp only [Option.some.injEq] at h
    subst h
    exact List.mem_map_of_mem _ hmem

theorem adjGet_subset_adjVals (g : GraphData) (u : String) :
    adjGet g u ⊆ adjVals g := by
  intro x hx
  unfold adjGet recGetD at hx
  cases hg : recGet? g.adj u with
  | none => rw [hg] at hx; simp at hx
  | some l =>
    rw [hg] at hx
    simp only [Option.getD_some] at hx
    have := recGet?_mem_sndList g.adj u l hg
    unfold adjVals
    exact List.mem_flatten.mpr ⟨l, this, hx⟩

theorem bfsInner_spec (u : String) (L : List String) :
    ∀ (ns q v : List String) (st : List BfsStep),
      v.Nodup → v ⊆ L → ns ⊆ L →
      ((bfsInner u ns q v st).2.1.Nodup ∧
       (bfsInner u ns q v st).2.1 ⊆ L ∧
       (bfsInner u ns q v st).1.length + v.length
         = q.length + (bfsInner u ns q v st).2.1.length) := by
  intro ns
  induction ns with
  | nil => intro q v st hnd hsub _; exact ⟨hnd, hsub, by simp [bfsInner]⟩
  | cons n ns ih =>
    intro q v st hnd hsub hns
    by_cases hmem : n ∈ v
    · simpa [bfsInner, hmem] using
        ih q v st hnd hsub (fun x hx => hns (List.mem_cons_of_mem _ hx))
    · have hnd' : (v ++ [n]).Nodup := by
        rw [List.nodup_append]
        exact ⟨hnd, List.nodup_singleton n,
          fun a ha hb => by simp at hb; subst hb; exact hmem ha⟩
      have hsub' : v ++ [n] ⊆ L := by
        intro x hx
        rcases List.mem_append.mp hx with h | h
        · exact hsub h
        · simp at h; subst h; exact hns (List.mem_cons_self _ _)
      have hns' : ns ⊆ L := fun x hx => hns (List.mem_cons_of_mem _ hx)
      simp only [bfsInner, if_neg hmem]
      refine ⟨(ih _ _ _ hnd' hsub' hns').1, (ih _ _ _ hnd' hsub' hns').2.1, ?_⟩
      have heq := (ih (q ++ [n]) (v ++ [n])
        (st ++ [{ dataStructure := q ++ [n], visited := v ++ [n], currentNode := some u,
                  neighbor := some n,
                  description := "Node " ++ u ++ " explores neighbor " ++ n ++
                    ". Add " ++ n ++ " to queue and mark as visited." }])
        hnd' hsub' hns').2.2
      simp only [List.length_append, List.length_singleton] at heq ⊢
      omega

theorem bfsLoop_isSome (g : GraphData) (L : List String) (hKeys : adjVals g ⊆ L) :
    ∀ (fuel : Nat) (q v : List String) (st : List BfsStep),
      v.Nodup → v ⊆ L →
      q.length + L.length ≤ fuel + v.length →
      (bfsLoop g fuel q v st).isSome := by
  intro fuel
  induction fuel with
  | zero =>
    intro q v st hnd hsub hle
    cases q with
    | nil => simp [bfsLoop]
    | cons u rest =>
      exfalso
      have hvL : v.length ≤ L.length := (List.Nodup.subperm hnd hsub).length_le
      simp only [List.length_cons] at hle
      omega
  | succ fuel ih =>
    intro q v st hnd hsub hle
    cases q with
    | nil => simp [bfsLoop]
    | cons u rest =>
      have hadj : adjGet g u ⊆ L := fun x hx => hKeys (adjGet_subset_adjVals g u hx)
      show (bfsLoop g (fuel + 1) (u :: rest) v st).isSome
      simp only [bfsLoop]
      rcases hbi : bfsInner u (adjGet g u) rest v
        (st ++ [{ dataStructure := rest, visited := v, currentNode := some u,
                  neighbor := none,
                  description := "Dequeue " ++ u ++ " to process it." }])
        with ⟨q', v', st'⟩
      have hspec := bfsInner_spec u L (adjGet g u) rest v
        (st ++ [{ dataStructure := rest, visited := v, currentNode := some u,
                  neighbor := none,
                  description := "Dequeue " ++ u ++ " to process it." }])
        hnd hsub hadj
      rw [hbi] at hspec
      dsimp only at hspec
      rw [hbi]
      dsimp only
      apply ih
      · exact hspec.1
      · exact hspec.2.1
      · have heq := hspec.2.2
        simp only [List.length_cons] at hle heq ⊢
        omega

/-- C3 (amended, representative theorem): the BFS generator terminates —
the explicit fuel bound `bfsFuel` always suffices — and returns at least
one Step, for every finite graph and every start node (cyclic graphs
included; the visited set is the recursion guard). -/
theorem bfsGenerateSteps_total (g : GraphData) (s : String) :
    ∃ out, bfsGenerateSteps g s = some out ∧ 1 ≤ out.length := by
  have hKeys : adjVals g ⊆ s :: adjVals g := List.subset_cons_self _ _
  have hsome := bfsLoop_isSome g (s :: adjVals g) hKeys (bfsFuel g) [s] [s]
    [{ dataStructure := [s], visited := [s], currentNode := none,
       neighbor := none,
       description := "Start BFS from node " ++ s ++
         ". Add it to the queue and mark as visited." }]
    (List.nodup_singleton s) (by intro x hx; simp at hx; simp [hx])
    (by simp only [bfsFuel, List.length_cons, List.length_singleton]; omega)
  obtain ⟨pr, hpr⟩ := Option.isSome_iff_exists.mp hsome
  obtain ⟨vfin, stfin⟩ := pr
  simp only [bfsGenerateSteps]
  rw [hpr]
  exact ⟨_, rfl, by simp⟩

/-! ### C4: BFS layering on the sample graph

`bfs.ts` emits no `distances` facet at all, so the claimed final
distances snapshot does not exist there; the visited-marking order is
checked against an independent reference distance, and the
`shortest-path-unweighted.ts` BFS variant (same sample graph) does emit
exactly the claimed snapshot. -/

/-- One round of neighborhood expansion (reference definition, not from
the source: used as the independent BFS-distance yardstick). -/
def reachExpand (g : GraphData) (r : List String) : List String :=
  r.foldl (fun acc u => (adjGet g u).foldl setAdd acc) r

/-- Nodes reachable from `s` in at most `k` edge steps (reference). -/
def reachWithin (g : GraphData) (s : String) : Nat → List String
  | 0 => [s]
  | k + 1 => reachExpand g (reachWithin g s k)

/-- Reference BFS distance: the least `k` with `v` reachable from `s`
within `k` steps (`none` if unreachable within `|V|` steps). -/
def refDist? (g : GraphData) (s v : String) : Option Nat :=
  (List.range (g.nodes.length + 1)).find? (fun k => decide (v ∈ reachWithin g s k))

/-- The final distances snapshot the claim asserts:
`{A:0, B:1, C:1, D:2, E:2, F:3}`. -/
def c4ClaimedDistances : List (String × DVal) :=
  [("A", DVal.fin 0), ("B", DVal.fin 1), ("C", DVal.fin 1),
   ("D", DVal.fin 2), ("E", DVal.fin 2), ("F", DVal.fin 3)]

/-! ### `shortest-path-unweighted.ts` (BFS with distances) -/

/-- `graphData` of `shortest-path-unweighted.ts`: identical (node for
node, list for list) to the `bfs.ts` sample. -/
def spuGraphData : GraphData := bfsGraphData

/-- One emitted `Step` of the shortest-path-unweighted generator. -/
structure SpuStep where
  dataStructure : List String
  visited : List String
  currentNode : Option String
  neighbor : Option String
  description : String
  distances : List (String × DVal)
  highlightedEdge : Option GEdge := none
deriving DecidableEq, Repr

instance : Inhabited SpuStep :=
  ⟨{ dataStructure := [], visited := [], currentNode := none, neighbor := none,
     description := "", distances := [] }⟩

/-- The `distances[currentNode] as number` cast; a dequeued node's
distance is always finite, so the `'∞'` branch is unreachable. -/
def dvalToInt : DVal → Int
  | DVal.fin n => n
  | DVal.inf => 0

/-- Inner neighbor loop of `shortest-path-unweighted.ts`. -/
def spuInner (u : String) :
    List String → List String → List String → List (String × DVal) → List SpuStep →
    (List String × List String × List (String × DVal) × List SpuStep)
  | [], queue, visited, distances, steps => (queue, visited, distances, steps)
  | n :: ns, queue, visited, distances, steps =>
    if n ∈ visited then spuInner u ns queue visited distances steps
    else
      let visited' := visited ++ [n]
      let queue' := queue ++ [n]
      let currentDist := dvalToInt (recGetD distances u DVal.inf)
      let distances' := recSet distances n (DVal.fin (currentDist + 1))
      let steps' := steps ++
        [{ dataStructure := queue', visited := visited', currentNode := some u,
           neighbor := some n,
           description := "Visit " ++ n ++ ". Distance = " ++
             toString (currentDist + 1) ++ ". Add to queue.",
           distances := distances',
           highlightedEdge := some ⟨u, n, 1⟩ }]
      spuInner u ns queue' visited' distances' steps'

/-- Outer loop of `shortest-path-unweighted.ts` (fuel is ample for the
concrete sample run). -/
def spuLoop (g : GraphData) :
    Nat → List String → List String → List (String × DVal) → List SpuStep →
    (List String × List (String × DVal) × List SpuStep)
  | _, [], visited, distances, steps => (visited, distances, steps)
  | 0, _ :: _, visited, distances, steps => (visited, distances, steps)
  | fuel + 1, u :: rest, visited, distances, steps =>
    let steps := steps ++
      [{ dataStructure := rest, visited := visited, currentNode := some u,
         neighbor := none, description := "Dequeue " ++ u ++ " to process it.",
         distances := distances }]
    match spuInner u (adjGet g u) rest visited distances steps with
    | (queue', visited', distances', steps') => spuLoop g fuel queue' visited' distances' steps'

/-- `generateSteps` of `shortest-path-unweighted.ts`. -/
def spuGenerateSteps (g : GraphData) (startNode : String) : List SpuStep :=
  let distances := recSet (g.nodes.foldl (fun r n => recSet r n.id DVal.inf) []) startNode (DVal.fin 0)
  let steps : List SpuStep :=
    [{ dataStructure := [startNode], visited := [startNode], currentNode := none,
       neighbor := none,
       description := "Start BFS from node " ++ startNode ++ ". Distance is 0.",
       distances := distances }]
  match spuLoop g 50 [startNode] [startNode] distances steps with
  | (visited, distances, steps) =>
    steps ++
      [{ dataStructure := [], visited := visited, currentNode := none, neighbor := none,
         description := "Queue is empty. Shortest paths from " ++ startNode ++ " found.",
         distances := distances }]

/-- The module's run, `generateSteps(graphData, 'A')`. -/
def spuSampleSteps : List SpuStep := spuGenerateSteps spuGraphData "A"

/-- C4 (counterexample): the final Step of the BFS generator's sample
run carries no `distances` snapshot at all (`bfs.ts` never sets the
field), so it does not equal the claimed `{A:0,...,F:3}` map. -/
theorem bfsFinalStepNoDistances :
    ¬ ((bfsSampleSteps.getLastD default).distances = some c4ClaimedDistances) := by
  decide

/-- Is the list non-decreasing under the measure `f`? -/
def nondecBy (f : String → Nat) : List String → Bool
  | [] => true
  | [_] => true
  | a :: b :: rest => decide (f a ≤ f b) && nondecBy f (b :: rest)

/-- C4 (amended): on the sample graph from `A`, the BFS generator marks
nodes visited in non-decreasing order of (independently computed) BFS
distance; the claimed map `{A:0,B:1,C:1,D:2,E:2,F:3}` agrees with that
reference distance on every node; and the final distances snapshot of
the `shortest-path-unweighted.ts` BFS variant (which does emit the
facet, on the identical sample graph) equals exactly the claimed map. -/
theorem bfsSampleLayering :
    nondecBy (fun v => (refDist? bfsGraphData "A" v).getD 1000)
      ((bfsSampleSteps.getLastD default).visited) = true
    ∧ (∀ kv ∈ c4ClaimedDistances,
        (refDist? bfsGraphData "A" kv.1).map (fun n => DVal.fin (Int.ofNat n)) = some kv.2)
    ∧ (spuSampleSteps.getLastD default).distances = c4ClaimedDistances := by
  decide

/-! ## Dijkstra (`src/lib/animations/cycle-detection-colors.ts`, second
module; uses `PriorityQueue` from `utils.ts`) -/

/-- JS `Array.prototype.sort` with comparator `(a, b) => a.priority - b.priority`
is required to be stable; a stable insertion sort under the comparator's
induced order produces the identical result. -/
def jsSortByPriority {α : Type} (key : α → Int) (l : List α) : List α :=
  List.insertionSort (fun a b => key a ≤ key b) l

/-- `PriorityQueue.enqueue`: push then (stable) sort by priority. -/
def pqEnqueue {α : Type} (pq : List (α × Int)) (x : α) (p : Int) : List (α × Int) :=
  jsSortByPriority (fun it => it.2) (pq ++ [(x, p)])

/-- `PriorityQueue.toStringArray` for a queue of node ids. -/
def pqToStringArray (pq : List (String × Int)) : List String :=
  pq.map (fun it => it.1 ++ "(" ++ toString it.2 ++ ")")

/-- The Dijkstra module's sample graph (weights 4, 2, 1, 5, 3, 3, 1). -/
def dijGraphData : GraphData :=
  { nodes := [⟨"A", 100, 200⟩, ⟨"B", 250, 100⟩, ⟨"C", 250, 300⟩,
              ⟨"D", 450, 100⟩, ⟨"E", 450, 300⟩, ⟨"F", 600, 200⟩],
    adj := [("A", ["B", "C"]), ("B", ["A", "D", "C"]), ("C", ["A", "B", "E"]),
            ("D", ["B", "F"]), ("E", ["C", "F"]), ("F", ["D", "E"])],
    edges := [⟨"A", "B", 4⟩, ⟨"A", "C", 2⟩, ⟨"B", "C", 1⟩, ⟨"B", "D", 5⟩,
              ⟨"C", "E", 3⟩, ⟨"D", "F", 3⟩, ⟨"E", "F", 1⟩] }

/-- One emitted `Step` of the Dijkstra generator. -/
structure DijStep where
  dataStructure : List String
  visited : List String
  currentNode : Option String
  neighbor : Option String
  description : String
  distances : List (String × DVal)
  highlightedEdge : Option GEdge := none
deriving DecidableEq, Repr

instance : Inhabited DijStep :=
  ⟨{ dataStructure := [], visited := [], currentNode := none, neighbor := none,
     description := "", distances := [] }⟩

/-- `graph.edges.find(e => (e.from === cur && e.to === nb) || (e.from === nb && e.to === cur))!`
(always found on the sample graph; the default is never used there). -/
def findUndirectedEdge (edges : List GEdge) (u v : String) : GEdge :=
  (edges.find? (fun e => (e.src = u ∧ e.dst = v) ∨ (e.src = v ∧ e.dst = u))).getD ⟨u, v, 0⟩

/-- Inner neighbor-relaxation loop of the Dijkstra generator. -/
def dijInner (g : GraphData) (u : String) :
    List String → List (String × Int) → List String → List (String × DVal) → List DijStep →
    (List (String × Int) × List (String × DVal) × List DijStep)
  | [], pq, _, distances, steps => (pq, distances, steps)
  | n :: ns, pq, visited, distances, steps =>
    if n ∈ visited then dijInner g u ns pq visited distances steps
    else
      let edge := findUndirectedEdge g.edges u n
      let currentDist := dvalToInt (recGetD distances u DVal.inf)
      let newDist := currentDist + edge.weight
      let improves :=
        match recGetD distances n DVal.inf with
        | DVal.inf => true
        | DVal.fin old => decide (newDist < old)
      if improves then
        let distances' := recSet distances n (DVal.fin newDist)
        let pq' := pqEnqueue pq n newDist
        let steps' := steps ++
          [{ dataStructure := pqToStringArray pq', visited := visited,
             currentNode := some u, neighbor := some n,
             description := "Shorter path to " ++ n ++ " found! Update distance to " ++
               toString newDist ++ ".",
             distances := distances', highlightedEdge := some edge }]
        dijInner g u ns pq' visited distances' steps'
      else dijInner g u ns pq visited distances steps

/-- Outer `while (!pq.isEmpty())` loop (lazy deletion: an already-visited
dequeued node is skipped without emitting a Step). -/
def dijLoop (g : GraphData) :
    Nat → List (String × Int) → List String → List (String × DVal) → List DijStep →
    (List String × List (String × DVal) × List DijStep)
  | _, [], visited, distances, steps => (visited, distances, steps)
  | 0, _ :: _, visited, distances, steps => (visited, distances, steps)
  | fuel + 1, (u, _) :: pqrest, visited, distances, steps =>
    if u ∈ visited then dijLoop g fuel pqrest visited distances steps
    else
      let visited' := visited ++ [u]
      let steps := steps ++
        [{ dataStructure := pqToStringArray pqrest, visited := visited',
           currentNode := some u, neighbor := none,
           description := "Extract node " ++ u ++
             " with the smallest distance from the Priority Queue.",
           distances := distances }]
      match dijInner g u (adjGet g u) pqrest visited' distances steps with
      | (pq', distances', steps') => dijLoop g fuel pq' visited' distances' steps'

/-- `generateSteps` of the Dijkstra module. -/
def dijGenerateSteps (g : GraphData) (startNode : String) : List DijStep :=
  let distances := recSet (g.nodes.foldl (fun r n => recSet r n.id DVal.inf) []) startNode (DVal.fin 0)
  let pq := pqEnqueue [] startNode 0
  let steps : List DijStep :=
    [{ dataStructure := pqToStringArray pq, visited := [], currentNode := none,
       neighbor := none,
       description := "Initialize distances. Start node distance is 0, others are infinity.",
       distances := distances }]
  match dijLoop g 50 pq [] distances steps with
  | (visited, distances, steps) =>
    steps ++
      [{ dataStructure := [], visited := visited, currentNode := none, neighbor := none,
         description := "Priority Queue is empty. Shortest paths from " ++ startNode ++ " found.",
         distances := distances }]

/-- The module's run, `generateSteps(graphData, 'A')`. -/
def dijSampleSteps : List DijStep := dijGenerateSteps dijGraphData "A"

/-- Relax one undirected edge in one direction (reference definition,
independent of the generator: textbook Bellman-Ford relaxation). -/
def bfRelaxDir (d : List (String × DVal)) (u v : String) (w : Int) : List (String × DVal) :=
  match recGetD d u DVal.inf with
  | DVal.inf => d
  | DVal.fin du =>
    match recGetD d v DVal.inf with
    | DVal.inf => recSet d v (DVal.fin (du + w))
    | DVal.fin dv => if du + w < dv then recSet d v (DVal.fin (du + w)) else d

/-- One full Bellman-Ford round over the undirected edge list. -/
def bfRelaxRound (edges : List GEdge) (d : List (String × DVal)) : List (String × DVal) :=
  edges.foldl (fun d e => bfRelaxDir (bfRelaxDir d e.src e.dst e.weight) e.dst e.src e.weight) d

/-- Independent shortest-path reference: `|V|` Bellman-Ford rounds from
the all-infinite initial assignment. -/
def refShortestDistances (g : GraphData) (startNode : String) : List (String × DVal) :=
  let d0 := recSet (g.nodes.foldl (fun r n => recSet r n.id DVal.inf) []) startNode (DVal.fin 0)
  Nat.rec d0 (fun _ d => bfRelaxRound g.edges d) g.nodes.length

/-- C5: the distances map in the final Step of the Dijkstra generator's
sample run (start `A`, weights 4/2/1/5/3/3/1) assigns every node its
true shortest-path distance as computed by an independent Bellman-Ford
reference — lazy deletion notwithstanding. -/
theorem dijkstraSampleDistancesCorrect :
    (∀ n ∈ dijGraphData.nodes,
      recGet? ((dijSampleSteps.getLastD default).distances) n.id
        = recGet? (refShortestDistances dijGraphData "A") n.id)
    ∧ (dijSampleSteps.getLastD default).distances
        = [("A", DVal.fin 0), ("B", DVal.fin 3), ("C", DVal.fin 2),
           ("D", DVal.fin 8), ("E", DVal.fin 5), ("F", DVal.fin 6)] := by
  decide

/-! ## Playback Controller (`GraphAnimation` in `src/unnamed/part_001`)
and Synchronization Layer (`CompareMST` in `src/unnamed/part_002`) -/

/-- The user-driven playback operations named by the claim:
`handleNext`, `handlePrev`, `resetAnimation`. -/
inductive PBOp where
  | next : PBOp
  | prev : PBOp
  | reset : PBOp
deriving DecidableEq, Repr

/-- Playback state of `GraphAnimation`: the `step` index (a JS number,
modelled as `Int`) and the `isPlaying` flag. -/
structure PlayState where
  idx : Int
  playing : Bool
deriving DecidableEq, Repr

/-- One operation of `GraphAnimation` for a trace of length `len`:
`handleNext` advances only when `step < steps.length - 1` and always
sets `isPlaying(false)`; `handlePrev` mirrors it at the lower bound;
`resetAnimation` sets step 0 and stops playback. -/
def pbApply (len : Int) (s : PlayState) : PBOp → PlayState
  | PBOp.next => { idx := if s.idx < len - 1 then s.idx + 1 else s.idx, playing := false }
  | PBOp.prev => { idx := if s.idx > 0 then s.idx - 1 else s.idx, playing := false }
  | PBOp.reset => { idx := 0, playing := false }

/-- Run a sequence of playback operations from the initial state
(index 0, not playing). -/
def pbRun (len : Int) (ops : List PBOp) : PlayState :=
  ops.foldl (pbApply len) { idx := 0, playing := false }

theorem pbApply_invariant (len : Int) (hlen : 1 ≤ len) (s : PlayState)
    (h0 : 0 ≤ s.idx) (h1 : s.idx ≤ len - 1) (op : PBOp) :
    0 ≤ (pbApply len s op).idx ∧ (pbApply len s op).idx ≤ len - 1 := by
  cases op <;> dsimp only [pbApply] <;> constructor <;> (try split) <;> omega

theorem pbRun_invariant (len : Int) (hlen : 1 ≤ len) (ops : List PBOp) :
    0 ≤ (pbRun len ops).idx ∧ (pbRun len ops).idx ≤ len - 1 := by
  suffices h : ∀ (s : PlayState), 0 ≤ s.idx → s.idx ≤ len - 1 →
      0 ≤ (ops.foldl (pbApply len) s).idx ∧ (ops.foldl (pbApply len) s).idx ≤ len - 1 by
    exact h { idx := 0, playing := false } (by dsimp only; omega) (by dsimp only; omega)
  induction ops with
  | nil => intro s h0 h1; exact ⟨h0, h1⟩
  | cons op ops ih =>
    intro s h0 h1
    have := pbApply_invariant len hlen s h0 h1 op
    exact ih _ this.1 this.2

/-- C6: for a non-empty trace, after any finite sequence of
`next`/`prev`/`reset` the current index stays in `[0, len-1]`; `next`
and `prev` move the index by ±1 clamped to that range and force the
not-playing state, and `reset` yields index 0, not playing. -/
theorem playbackIndexSafety (len : Int) (hlen : 1 ≤ len) (ops : List PBOp) :
    (0 ≤ (pbRun len ops).idx ∧ (pbRun len ops).idx ≤ len - 1)
    ∧ (∀ s : PlayState, 0 ≤ s.idx → s.idx ≤ len - 1 →
        pbApply len s PBOp.next = { idx := min (s.idx + 1) (len - 1), playing := false }
        ∧ pbApply len s PBOp.prev = { idx := max (s.idx - 1) 0, playing := false }
        ∧ pbApply len s PBOp.reset = { idx := 0, playing := false }) := by
  refine ⟨pbRun_invariant len hlen ops, ?_⟩
  intro s h0 h1
  have hn : (if s.idx < len - 1 then s.idx + 1 else s.idx) = min (s.idx + 1) (len - 1) := by
    split <;> omega
  have hp : (if s.idx > 0 then s.idx - 1 else s.idx) = max (s.idx - 1) 0 := by
    split <;> omega
  exact ⟨by dsimp only [pbApply]; rw [hn], by dsimp only [pbApply]; rw [hp], rfl⟩

/-- Witness for C6 at `len = 2`, `ops = [next, next, prev]`. -/
theorem playbackIndexSafety_witness :
    ((0 ≤ (pbRun 2 [PBOp.next, PBOp.next, PBOp.prev]).idx
      ∧ (pbRun 2 [PBOp.next, PBOp.next, PBOp.prev]).idx ≤ 2 - 1)
    ∧ (∀ s : PlayState, 0 ≤ s.idx → s.idx ≤ 2 - 1 →
        pbApply 2 s PBOp.next = { idx := min (s.idx + 1) (2 - 1), playing := false }
        ∧ pbApply 2 s PBOp.prev = { idx := max (s.idx - 1) 0, playing := false }
        ∧ pbApply 2 s PBOp.reset = { idx := 0, playing := false })) :=
  playbackIndexSafety 2 (by norm_num) [PBOp.next, PBOp.next, PBOp.prev]

/-- Shared playback state of `CompareMST` (the shared `step` index is
only ever assigned clamped non-negative values, so `Nat` is exact). -/
structure SyncState where
  step : Nat
  playing : Bool
deriving DecidableEq, Repr

/-- One shared-clock operation of `CompareMST` with
`maxSteps = Math.max(prims.steps.length, kruskals.steps.length)`. -/
def syncApply (maxSteps : Nat) (s : SyncState) : PBOp → SyncState
  | PBOp.next => { step := if s.step < maxSteps - 1 then s.step + 1 else s.step, playing := false }
  | PBOp.prev => { step := if s.step > 0 then s.step - 1 else s.step, playing := false }
  | PBOp.reset => { step := 0, playing := false }

/-- Run `CompareMST`'s shared clock from its initial state. -/
def syncRun (lenA lenB : Nat) (ops : List PBOp) : SyncState :=
  ops.foldl (syncApply (max lenA lenB)) { step := 0, playing := false }

/-- Per-trace rendered index: `Math.min(step, steps.length - 1)` as
passed by `CompareMST` to each `GraphAnimation`. -/
def renderIdx (len sh : Nat) : Nat := min sh (len - 1)

theorem syncRun_bound (lenA lenB : Nat) (hA : 1 ≤ lenA) (ops : List PBOp) :
    (syncRun lenA lenB ops).step ≤ max lenA lenB - 1 := by
  have hmax : 1 ≤ max lenA lenB := le_trans hA (le_max_left _ _)
  suffices h : ∀ (s : SyncState), s.step ≤ max lenA lenB - 1 →
      (ops.foldl (syncApply (max lenA lenB)) s).step ≤ max lenA lenB - 1 by
    exact h { step := 0, playing := false } (by dsimp only; omega)
  induction ops with
  | nil => intro s h1; exact h1
  | cons op ops ih =>
    intro s h1
    refine ih _ ?_
    cases op <;> dsimp only [syncApply] <;> (try split) <;> omega

/-- C7: the `CompareMST` shared index stays within
`[0, max(lenA,lenB)-1]` under any sequence of shared-clock operations;
each trace renders the Step at `min(sharedIndex, ownLength-1)`, so once
the shared index passes the shorter trace's last index the shorter trace
keeps rendering its final Step while the longer trace's rendered Step is
the one at the shared index itself. -/
theorem syncComparisonClamping {α : Type} (dflt : α)
    (stepsShort stepsLong : List α)
    (hshort : 1 ≤ stepsShort.length)
    (hlen : stepsShort.length ≤ stepsLong.length) (ops : List PBOp) :
    (syncRun stepsShort.length stepsLong.length ops).step
        ≤ max stepsShort.length stepsLong.length - 1
    ∧ (∀ sh : Nat, sh ≤ max stepsShort.length stepsLong.length - 1 →
        stepsShort.length - 1 < sh →
        stepsShort.getD (renderIdx stepsShort.length sh) dflt = stepsShort.getLastD dflt
        ∧ stepsLong.getD (renderIdx stepsLong.length sh) dflt = stepsLong.getD sh dflt) := by
  refine ⟨syncRun_bound _ _ hshort ops, ?_⟩
  intro sh hsh hgt
  have hmax : max stepsShort.length stepsLong.length = stepsLong.length :=
    max_eq_right hlen
  rw [hmax] at hsh
  constructor
  · have hmin : renderIdx stepsShort.length sh = stepsShort.length - 1 := by
      unfold renderIdx; omega
    rw [hmin]
    rw [List.getD_eq_getElem?_getD, List.getLastD_eq_getLast?]
    rw [List.getLast?_eq_getElem?]
  · have hmin : renderIdx stepsLong.length sh = sh := by
      unfold renderIdx; omega
    rw [hmin]

/-- Witness for C7 with a 2-step and a 3-step trace and shared index 2. -/
theorem syncComparisonClamping_witness :
    (syncRun [10, 20].length [30, 40, 50].length [PBOp.next, PBOp.next]).step
        ≤ max [10, 20].length [30, 40, 50].length - 1
    ∧ (∀ sh : Nat, sh ≤ max [10, 20].length [30, 40, 50].length - 1 →
        [10, 20].length - 1 < sh →
        [10, 20].getD (renderIdx [10, 20].length sh) 0 = [10, 20].getLastD 0
        ∧ [30, 40, 50].getD (renderIdx [30, 40, 50].length sh) 0 = [30, 40, 50].getD sh 0) :=
  syncComparisonClamping 0 [10, 20] [30, 40, 50] (by norm_num) (by norm_num)
    [PBOp.next, PBOp.next]

/-! ## DisjointSet (`utils.ts`, used by the Union-Find-based generators)

The `parent` record is an association list; `find` recurses with path
compression; `union` attaches one root under the other. `this.parent[i]`
for a string that was never given a binding is modelled as `i` itself
(such strings are immediate roots); the class only ever touches the
constructor's elements, all of which are keys. -/

/-- `this.parent[i]` with the missing-key convention above. -/
def pget (p : List (String × String)) (i : String) : String := recGetD p i i

/-- The keys of the parent record, in insertion order. -/
def pkeys (p : List (String × String)) : List String := p.map (fun kv => kv.1)

/-- `i` is a root: it is its own parent. -/
def IsRoot (p : List (String × String)) (i : String) : Prop := pget p i = i

instance (p : List (String × String)) (i : String) : Decidable (IsRoot p i) := by
  unfold IsRoot; infer_instance

/-- Follow parent pointers for at most `n` steps, stopping at a root
(the value `find` would return, computed without mutation). -/
def rootN : Nat → List (String × String) → String → String
  | 0, _, i => i
  | n + 1, p, i => if pget p i = i then i else rootN n p (pget p i)

/-- Follow parent pointers for exactly `n` steps (roots are fixpoints). -/
def pIter : Nat → List (String × String) → String → String
  | 0, _, i => i
  | n + 1, p, i => pIter n p (pget p i)

/-- `r` is the root of `i`'s parent chain. -/
def RootR (p : List (String × String)) (i r : String) : Prop :=
  (∃ n, rootN n p i = r) ∧ IsRoot p r

/-- Well-formedness of a parent record: keys are distinct and every
key's chain reaches a root within `p.length` steps (decidable). -/
def DSUWF (p : List (String × String)) : Prop :=
  (pkeys p).Nodup ∧ ∀ i ∈ pkeys p, IsRoot p (rootN p.length p i)

instance (p : List (String × String)) : Decidable (DSUWF p) := by
  unfold DSUWF; infer_instance

/-- The root `find(i)` reports (pure observation). -/
def rootOf (p : List (String × String)) (i : String) : String :=
  rootN p.length p i

/-- `DisjointSet.find` with path compression: compute the root, then
redirect `parent[i]` to it on the way back (`findAux` carries the
recursion fuel; `p.length + 1` always suffices on well-formed states). -/
def findAux : Nat → List (String × String) → String → String × List (String × String)
  | 0, p, i => (i, p)
  | fuel + 1, p, i =>
    if pget p i = i then (i, p)
    else
      let r := findAux fuel p (pget p i)
      (r.1, recSet r.2 i r.1)

/-- `DisjointSet.find(i)`: returns the root and the compressed record. -/
def dsuFind (p : List (String × String)) (i : String) : String × List (String × String) :=
  findAux (p.length + 1) p i

/-- `DisjointSet.union(i, j)`: two (mutating) finds, then attach
`rootJ` under `rootI` when they differ. -/
def dsuUnion (p : List (String × String)) (i j : String) : List (String × String) :=
  let fi := dsuFind p i
  let fj := dsuFind fi.2 j
  if fi.1 ≠ fj.1 then recSet fj.2 fj.1 fi.1 else fj.2

/-- The `DisjointSet` constructor: every element its own parent. -/
def dsuInit (elements : List String) : List (String × String) :=
  elements.foldl (fun r e => recSet r e e) []

/-- `DisjointSet.getSets`: map every key to its root, calling the
mutating `find` along the way; returns the sets record and the final
parent record. -/
def dsuGetSets (p : List (String × String)) :
    List (String × String) × List (String × String) :=
  (pkeys p).foldl
    (fun acc k =>
      let f := dsuFind acc.2 k
      (recSet acc.1 k f.1, f.2))
    ([], p)

/-! ### Record-operation lemmas -/

theorem recGet?_cons {α : Type} (kv : String × α) (rest : List (String × α)) (x : String) :
    recGet? (kv :: rest) x = if kv.1 = x then some kv.2 else recGet? rest x := by
  by_cases h : kv.1 = x
  · unfold recGet?
    rw [List.find?_cons_of_pos _ (by simpa [beq_iff_eq])]
    simp [h]
  · unfold recGet?
    rw [List.find?_cons_of_neg _ (by simpa [beq_iff_eq])]
    simp [h]

theorem recGet?_recSet {α : Type} (r : List (String × α)) (k : String) (v : α) (x : String) :
    recGet? (recSet r k v) x = if x = k then some v else recGet? r x := by
  induction r with
  | nil =>
    show recGet? [(k, v)] x = _
    rw [recGet?_cons]
    by_cases hxk : x = k
    · simp [hxk]
    · have h1 : ¬ (k = x) := fun h => hxk h.symm
      simp [h1, hxk]
  | cons kv rest ih =>
    by_cases hk : kv.1 = k
    · simp only [recSet, if_pos hk]
      rw [recGet?_cons, recGet?_cons]
      by_cases hxk : x = k
      · simp [hxk]
      · have h1 : ¬ (k = x) := fun h => hxk h.symm
        have h2 : ¬ (kv.1 = x) := by rw [hk]; exact h1
        simp [h1, h2, hxk]
    · simp only [recSet, if_neg hk]
      rw [recGet?_cons, recGet?_cons, ih]
      by_cases hkx : kv.1 = x
      · have hxk : ¬ (x = k) := fun h => hk (hkx.trans h)
        simp [hkx, hxk]
      · simp [hkx]

theorem recGet?_eq_none_iff {α : Type} (r : List (String × α)) (x : String) :
    recGet? r x = none ↔ x ∉ r.map (fun kv => kv.1) := by
  induction r with
  | nil => simp [recGet?]
  | cons kv rest ih =>
    rw [recGet?_cons]
    by_cases h : kv.1 = x
    · simp [h]
    · have h2 : ¬ (x = kv.1) := fun hh => h hh.symm
      simp [h, h2, ih]

theorem pget_recSet (p : List (String × String)) (k v x : String) :
    pget (recSet p k v) x = if x = k then v else pget p x := by
  unfold pget recGetD
  rw [recGet?_recSet]
  by_cases h : x = k <;> simp [h]

theorem pget_of_not_mem (p : List (String × String)) (x : String)
    (h : x ∉ pkeys p) : pget p x = x := by
  unfold pget recGetD
  rw [(recGet?_eq_none_iff p x).mpr h]
  rfl

theorem mem_pkeys_of_pget_ne (p : List (String × String)) (x : String)
    (h : pget p x ≠ x) : x ∈ pkeys p := by
  by_contra hc
  exact h (pget_of_not_mem p x hc)

theorem pkeys_recSet {α : Type} (r : List (String × α)) (k : String) (v : α) :
    (recSet r k v).map (fun kv => kv.1)
      = if k ∈ r.map (fun kv => kv.1) then r.map (fun kv => kv.1)
        else r.map (fun kv => kv.1) ++ [k] := by
  induction r with
  | nil => simp [recSet]
  | cons kv rest ih =>
    by_cases h : kv.1 = k
    · simp [recSet, h]
    · have hne : ¬ (k = kv.1) := fun hc => h hc.symm
      simp only [recSet, if_neg h, List.map_cons, List.mem_cons]
      rw [ih]
      by_cases hm : k ∈ rest.map (fun kv => kv.1) <;> simp [hm, hne]

theorem pkeys_recSet_of_mem (p : List (String × String)) (k v : String)
    (h : k ∈ pkeys p) : pkeys (recSet p k v) = pkeys p := by
  unfold pkeys at h ⊢
  rw [pkeys_recSet, if_pos h]

theorem pkeys_recSet_eq (p : List (String × String)) (k v : String) :
    pkeys (recSet p k v) = if k ∈ pkeys p then pkeys p else pkeys p ++ [k] := by
  unfold pkeys
  exact pkeys_recSet p k v

theorem length_eq_pkeys_length {α : Type} (r : List (String × α)) :
    r.length = (r.map (fun kv => kv.1)).length := by
  simp

/-! ### Chain lemmas -/

theorem rootN_of_isRoot (p : List (String × String)) (i : String)
    (h : IsRoot p i) : ∀ n, rootN n p i = i := by
  intro n
  cases n with
  | zero => rfl
  | succ n => unfold IsRoot at h; simp [rootN, h]

theorem pIter_of_isRoot (p : List (String × String)) (i : String)
    (h : IsRoot p i) : ∀ n, pIter n p i = i := by
  intro n
  induction n with
  | zero => rfl
  | succ n ih => unfold IsRoot at h; simp [pIter, h, ih]

theorem pIter_add (p : List (String × String)) (a b : Nat) (i : String) :
    pIter (a + b) p i = pIter b p (pIter a p i) := by
  induction a generalizing i with
  | zero => simp [pIter]
  | succ a ih =>
    have : a + 1 + b = (a + b) + 1 := by omega
    rw [this]
    show pIter (a + b) p (pget p i) = pIter b p (pIter (a + 1) p i)
    rw [ih (pget p i)]
    rfl

theorem pIter_eq_rootN (p : List (String × String)) :
    ∀ (n : Nat) (i r : String), rootN n p i = r → IsRoot p r → pIter n p i = r := by
  intro n
  induction n with
  | zero => intro i r h _; exact h
  | succ n ih =>
    intro i r h hr
    by_cases hi : pget p i = i
    · rw [rootN_of_isRoot p i hi] at h
      subst h
      exact pIter_of_isRoot p i hi _
    · simp only [rootN, if_neg hi] at h
      show pIter n p (pget p i) = r
      exact ih _ _ h hr

theorem rootN_eq_pIter (p : List (String × String)) :
    ∀ (n : Nat) (i r : String), pIter n p i = r → IsRoot p r → rootN n p i = r := by
  intro n
  induction n with
  | zero => intro i r h _; exact h
  | succ n ih =>
    intro i r h hr
    by_cases hi : pget p i = i
    · rw [pIter_of_isRoot p i hi] at h
      subst h
      exact rootN_of_isRoot p i hi _
    · simp only [rootN, if_neg hi]
      exact ih _ _ h hr

theorem rootN_absorb (p : List (String × String)) :
    ∀ (n : Nat) (i : String), IsRoot p (rootN n p i) →
      rootN (n + 1) p i = rootN n p i := by
  intro n
  induction n with
  | zero =>
    intro i h
    simpa using rootN_of_isRoot p i h 1
  | succ n ih =>
    intro i h
    by_cases hi : pget p i = i
    · simp only [rootN_of_isRoot p i hi]
    · simp only [rootN, if_neg hi] at h ⊢
      exact ih _ h

theorem rootN_stable (p : List (String × String)) (n : Nat) (i : String)
    (h : IsRoot p (rootN n p i)) :
    ∀ d, rootN (n + d) p i = rootN n p i := by
  intro d
  induction d with
  | zero => rfl
  | succ d ih =>
    have : n + (d + 1) = (n + d) + 1 := by omega
    rw [this, rootN_absorb p (n + d) i (ih ▸ h), ih]

theorem rootN_unique (p : List (String × String)) :
    ∀ (n : Nat) (i r : String), rootN n p i = r → IsRoot p r →
      ∀ (k : Nat) (r' : String), rootN k p i = r' → IsRoot p r' → r = r' := by
  intro n
  induction n with
  | zero =>
    intro i r h hr k r' h' hr'
    subst h
    rw [rootN_of_isRoot p i hr k] at h'
    exact h'
  | succ n ih =>
    intro i r h hr k r' h' hr'
    by_cases hi : pget p i = i
    · rw [rootN_of_isRoot p i hi] at h h'
      rw [← h, ← h']
    · simp only [rootN, if_neg hi] at h
      cases k with
      | zero =>
        have hii : i = r' := h'
        rw [← hii] at hr'
        exact absurd hr' hi
      | succ k =>
        simp only [rootN, if_neg hi] at h'
        exact ih _ _ h hr _ _ h' hr'

theorem rootR_unique (p : List (String × String)) (i r r' : String)
    (h : RootR p i r) (h' : RootR p i r') : r = r' := by
  obtain ⟨⟨n, hn⟩, hr⟩ := h
  obtain ⟨⟨k, hk⟩, hr'⟩ := h'
  exact rootN_unique p n i r hn hr k r' hk hr'

theorem rootR_parent (q : List (String × String)) (x r : String)
    (h : RootR q (pget q x) r) : RootR q x r := by
  by_cases hx : pget q x = x
  · rw [hx] at h; exact h
  · obtain ⟨⟨n, hn⟩, hr⟩ := h
    exact ⟨⟨n + 1, by simp only [rootN, if_neg hx]; exact hn⟩, hr⟩

/-- Any parent chain that reaches a root reaches it within `p.length`
steps (minimal chains cannot repeat a non-root, every non-root is a key,
and there are at most `p.length` distinct keys). -/
theorem chain_shorten (p : List (String × String)) :
    ∀ (n : Nat) (i r : String), pIter n p i = r → IsRoot p r →
      ∃ m, m ≤ p.length ∧ pIter m p i = r := by
  intro n
  induction n using Nat.strong_induction_on with
  | _ n ihs =>
    intro i r h hr
    by_cases hn : n ≤ p.length
    · exact ⟨n, hn, h⟩
    · by_cases hroot : ∃ t, t ≤ p.length ∧ IsRoot p (pIter t p i)
      · obtain ⟨t, ht, hrt⟩ := hroot
        refine ⟨t, ht, ?_⟩
        have htn : t + (n - t) = n := by omega
        have : pIter n p i = pIter t p i := by
          rw [← htn, pIter_add, pIter_of_isRoot p _ hrt]
        rw [← h, this]
      · push_neg at hroot
        have hmem : ∀ t, t ≤ p.length → pIter t p i ∈ pkeys p := by
          intro t ht
          exact mem_pkeys_of_pget_ne p _ (hroot t ht)
        have hcard : ((pkeys p).toFinset).card < (Finset.range (p.length + 1)).card := by
          have h1 : (pkeys p).toFinset.card ≤ (pkeys p).length := List.toFinset_card_le _
          have h2 : (pkeys p).length = p.length := by simp [pkeys]
          simp only [Finset.card_range]
          omega
        obtain ⟨a, ha, b, hb, hab, hfab⟩ :=
          Finset.exists_ne_map_eq_of_card_lt_of_maps_to hcard
            (f := fun t => pIter t p i)
            (fun t ht => by
              simp only [Finset.mem_range] at ht
              exact List.mem_toFinset.mpr (hmem t (by omega)))
        simp only [Finset.mem_range] at ha hb
        rcases Nat.lt_or_ge a b with hlt | hge
        · have hshort : pIter (n - (b - a)) p i = r := by
            have hsplit : n = b + (n - b) := by omega
            have : pIter n p i = pIter (n - b) p (pIter b p i) := by
              rw [← pIter_add, ← hsplit]
            rw [this, ← hfab] at h
            have : pIter (n - b) p (pIter a p i) = pIter (a + (n - b)) p i := by
              rw [pIter_add]
            rw [this] at h
            have harith : a + (n - b) = n - (b - a) := by omega
            rw [harith] at h
            exact h
          exact ihs (n - (b - a)) (by omega) i r hshort hr
        · have hlt' : b < a := by omega
          have hshort : pIter (n - (a - b)) p i = r := by
            have hsplit : n = a + (n - a) := by omega
            have : pIter n p i = pIter (n - a) p (pIter a p i) := by
              rw [← pIter_add, ← hsplit]
            rw [this, hfab] at h
            have : pIter (n - a) p (pIter b p i) = pIter (b + (n - a)) p i := by
              rw [pIter_add]
            rw [this] at h
            have harith : b + (n - a) = n - (a - b) := by omega
            rw [harith] at h
            exact h
          exact ihs (n - (a - b)) (by omega) i r hshort hr

/-- Bounded well-formedness follows from every key having some root. -/
theorem wf_from_roots (p : List (String × String)) (hnd : (pkeys p).Nodup)
    (h : ∀ x ∈ pkeys p, ∃ r, RootR p x r) : DSUWF p := by
  refine ⟨hnd, ?_⟩
  intro i hi
  obtain ⟨r, ⟨⟨n, hn⟩, hr⟩⟩ := h i hi
  have hpit := pIter_eq_rootN p n i r hn hr
  obtain ⟨m, hm, hmit⟩ := chain_shorten p n i r hpit hr
  have hroot := rootN_eq_pIter p m i r hmit hr
  have hstab := rootN_stable p m i (by rw [hroot]; exact hr) (p.length - m)
  have : m + (p.length - m) = p.length := by omega
  rw [this] at hstab
  rw [hstab, hroot]
  exact hr

/-- On a well-formed record every string (key or not) has `rootOf` as
its root. -/
theorem rootR_rootOf (p : List (String × String)) (hWF : DSUWF p) (x : String) :
    RootR p x (rootOf p x) := by
  by_cases hx : x ∈ pkeys p
  · have := hWF.2 x hx
    exact ⟨⟨p.length, rfl⟩, this⟩
  · have hroot : IsRoot p x := pget_of_not_mem p x hx
    have : rootOf p x = x := rootN_of_isRoot p x hroot _
    rw [this]
    exact ⟨⟨0, rfl⟩, hroot⟩

/-- `rootOf` computes the unique root. -/
theorem rootOf_eq (p : List (String × String)) (hWF : DSUWF p) (x r : String)
    (h : RootR p x r) : rootOf p x = r :=
  rootR_unique p x _ _ (rootR_rootOf p hWF x) h

/-- Path-compression update: redirecting `i` straight to its own root
changes nobody's root. -/
theorem rootR_recSet_shortcut (q : List (String × String)) (i root : String)
    (hc : RootR q i root) :
    ∀ (x s : String), RootR q x s → RootR (recSet q i root) x s := by
  have hbase : ∀ s, IsRoot q s → RootR (recSet q i root) s s := by
    intro s hs
    by_cases hsi : s = i
    · subst hsi
      have hri : root = s := rootR_unique q s root s hc ⟨⟨0, rfl⟩, hs⟩
      have : pget (recSet q s root) s = s := by
        rw [pget_recSet, if_pos rfl, hri]
      exact ⟨⟨0, rfl⟩, this⟩
    · have : pget (recSet q i root) s = s := by
        rw [pget_recSet, if_neg hsi]; exact hs
      exact ⟨⟨0, rfl⟩, this⟩
  suffices h : ∀ (n : Nat) (x s : String), rootN n q x = s → IsRoot q s →
      RootR (recSet q i root) x s by
    intro x s hxs
    obtain ⟨⟨n, hn⟩, hs⟩ := hxs
    exact h n x s hn hs
  intro n
  induction n with
  | zero =>
    intro x s hn hs
    have hxs : x = s := hn
    subst hxs
    exact hbase x hs
  | succ n ih =>
    intro x s hn hs
    by_cases hx : pget q x = x
    · rw [rootN_of_isRoot q x hx] at hn
      subst hn
      exact hbase x hx
    · simp only [rootN, if_neg hx] at hn
      by_cases hxi : x = i
      · subst hxi
        have hsr : s = root :=
          rootR_unique q x s root ⟨⟨n + 1, by simp only [rootN, if_neg hx]; exact hn⟩, hs⟩ hc
        subst hsr
        have hpar : pget (recSet q x s) x = s := by
          rw [pget_recSet, if_pos rfl]
        apply rootR_parent
        rw [hpar]
        exact hbase s (hc.2)
      · have hpar : pget (recSet q i root) x = pget q x := by
          rw [pget_recSet, if_neg hxi]
        apply rootR_parent
        rw [hpar]
        exact ih _ _ hn hs

/-- Union update: attaching root `rb` under root `ra` sends every root-`rb`
element to `ra` and leaves all other roots unchanged. -/
theorem rootR_recSet_link (q : List (String × String)) (ra rb : String)
    (hra : IsRoot q ra) (hrb : IsRoot q rb) :
    ∀ (x s : String), RootR q x s → RootR (recSet q rb ra) x (if s = rb then ra else s) := by
  have hbase : ∀ s, IsRoot q s → RootR (recSet q rb ra) s (if s = rb then ra else s) := by
    intro s hs
    by_cases hsrb : s = rb
    · subst hsrb
      rw [if_pos rfl]
      by_cases hab : ra = s
      · subst hab
        have : pget (recSet q ra ra) ra = ra := by
          rw [pget_recSet, if_pos rfl]
        exact ⟨⟨0, rfl⟩, this⟩
      · have hroot : IsRoot (recSet q s ra) ra := by
          unfold IsRoot
          rw [pget_recSet, if_neg hab]; exact hra
        apply rootR_parent
        rw [pget_recSet, if_pos rfl]
        exact ⟨⟨0, rfl⟩, hroot⟩
    · have : pget (recSet q rb ra) s = s := by
        rw [pget_recSet, if_neg hsrb]; exact hs
      rw [if_neg hsrb]
      exact ⟨⟨0, rfl⟩, this⟩
  suffices h : ∀ (n : Nat) (x s : String), rootN n q x = s → IsRoot q s →
      RootR (recSet q rb ra) x (if s = rb then ra else s) by
    intro x s hxs
    obtain ⟨⟨n, hn⟩, hs⟩ := hxs
    exact h n x s hn hs
  intro n
  induction n with
  | zero =>
    intro x s hn hs
    have hxs : x = s := hn
    subst hxs
    exact hbase x hs
  | succ n ih =>
    intro x s hn hs
    by_cases hx : pget q x = x
    · rw [rootN_of_isRoot q x hx] at hn
      subst hn
      exact hbase x hx
    · simp only [rootN, if_neg hx] at hn
      have hxrb : x ≠ rb := fun hc => hx (by rw [hc]; exact hrb)
      have hpar : pget (recSet q rb ra) x = pget q x := by
        rw [pget_recSet, if_neg hxrb]
      apply rootR_parent
      rw [hpar]
      exact ih _ _ hn hs

/-- `findAux` with enough fuel returns `i`'s root, preserves every
element's root, and leaves the key set unchanged. -/
theorem findAux_spec (p : List (String × String)) :
    ∀ (fuel : Nat) (i : String) (n : Nat) (r : String),
      n ≤ fuel → rootN n p i = r → IsRoot p r →
      (findAux fuel p i).1 = r
      ∧ (∀ x s, RootR p x s → RootR (findAux fuel p i).2 x s)
      ∧ pkeys (findAux fuel p i).2 = pkeys p := by
  intro fuel
  induction fuel with
  | zero =>
    intro i n r hle hn hr
    have hn0 : n = 0 := by omega
    subst hn0
    have hir : i = r := hn
    subst hir
    exact ⟨rfl, fun x s h => h, rfl⟩
  | succ fuel ih =>
    intro i n r hle hn hr
    by_cases hi : pget p i = i
    · have hred : findAux (fuel + 1) p i = (i, p) := by
        simp only [findAux, if_pos hi]
      rw [hred]
      have hri : r = i := by rw [rootN_of_isRoot p i hi] at hn; exact hn.symm
      exact ⟨hri.symm, fun x s h => h, rfl⟩
    · cases n with
      | zero =>
        have hir : i = r := hn
        rw [← hir] at hr
        exact absurd hr hi
      | succ n =>
        simp only [rootN, if_neg hi] at hn
        have hspec := ih (pget p i) n r (by omega) hn hr
        obtain ⟨h1, h2, h3⟩ := hspec
        have hred : findAux (fuel + 1) p i
            = ((findAux fuel p (pget p i)).1,
               recSet (findAux fuel p (pget p i)).2 i (findAux fuel p (pget p i)).1) := by
          simp only [findAux, if_neg hi]
        rw [hred]
        have hRpi : RootR p i r :=
          ⟨⟨n + 1, by simp only [rootN, if_neg hi]; exact hn⟩, hr⟩
        have hRqi : RootR (findAux fuel p (pget p i)).2 i r := h2 i r hRpi
        refine ⟨h1, ?_, ?_⟩
        · intro x s hxs
          show RootR (recSet (findAux fuel p (pget p i)).2 i (findAux fuel p (pget p i)).1) x s
          rw [h1]
          exact rootR_recSet_shortcut _ i r hRqi x s (h2 x s hxs)
        · show pkeys (recSet (findAux fuel p (pget p i)).2 i (findAux fuel p (pget p i)).1)
            = pkeys p
          have hmem : i ∈ pkeys (findAux fuel p (pget p i)).2 := by
            rw [h3]
            exact mem_pkeys_of_pget_ne p i hi
          rw [pkeys_recSet_of_mem _ i _ hmem]
          exact h3

/-- `DisjointSet.find` on a well-formed record: returns `rootOf`,
preserves every element's reported root, preserves well-formedness and
the key set. -/
theorem dsuFind_spec (p : List (String × String)) (hWF : DSUWF p) (i : String) :
    (dsuFind p i).1 = rootOf p i
    ∧ (∀ x, rootOf (dsuFind p i).2 x = rootOf p x)
    ∧ DSUWF (dsuFind p i).2
    ∧ pkeys (dsuFind p i).2 = pkeys p := by
  have hR := rootR_rootOf p hWF i
  have hspec := findAux_spec p (p.length + 1) i p.length (rootOf p i) (by omega) rfl hR.2
  obtain ⟨h1, h2, h3⟩ := hspec
  have hnd : (pkeys (dsuFind p i).2).Nodup := by
    unfold dsuFind; rw [h3]; exact hWF.1
  have hwf : DSUWF (dsuFind p i).2 := by
    refine wf_from_roots _ hnd ?_
    intro x _
    exact ⟨rootOf p x, h2 x _ (rootR_rootOf p hWF x)⟩
  refine ⟨h1, ?_, hwf, h3⟩
  intro x
  exact rootOf_eq _ hwf x _ (h2 x _ (rootR_rootOf p hWF x))

/-- `DisjointSet.union` on a well-formed record: stays well-formed and
makes the two arguments' reported roots equal. -/
theorem dsuUnion_spec (p : List (String × String)) (hWF : DSUWF p) (a b : String) :
    DSUWF (dsuUnion p a b)
    ∧ rootOf (dsuUnion p a b) a = rootOf (dsuUnion p a b) b := by
  obtain ⟨hfa1, hfa2, hfa3, hfa4⟩ := dsuFind_spec p hWF a
  obtain ⟨hfb1, hfb2, hfb3, hfb4⟩ := dsuFind_spec (dsuFind p a).2 hfa3 b
  have hu : dsuUnion p a b
      = if (dsuFind p a).1 ≠ (dsuFind (dsuFind p a).2 b).1
        then recSet (dsuFind (dsuFind p a).2 b).2 (dsuFind (dsuFind p a).2 b).1 (dsuFind p a).1
        else (dsuFind (dsuFind p a).2 b).2 := rfl
  have hq2a : RootR (dsuFind (dsuFind p a).2 b).2 a (rootOf p a) := by
    have := rootR_rootOf _ hfb3 a
    rw [hfb2 a, hfa2 a] at this
    exact this
  have hq2b : RootR (dsuFind (dsuFind p a).2 b).2 b (rootOf (dsuFind p a).2 b) := by
    have := rootR_rootOf _ hfb3 b
    rw [hfb2 b] at this
    exact this
  by_cases hne : (dsuFind p a).1 ≠ (dsuFind (dsuFind p a).2 b).1
  · rw [hu, if_pos hne]
    have hraroot : IsRoot (dsuFind (dsuFind p a).2 b).2 (dsuFind p a).1 := by
      rw [hfa1]; exact hq2a.2
    have hrbroot : IsRoot (dsuFind (dsuFind p a).2 b).2 (dsuFind (dsuFind p a).2 b).1 := by
      rw [hfb1]; exact hq2b.2
    have hlink := rootR_recSet_link (dsuFind (dsuFind p a).2 b).2
      (dsuFind p a).1 (dsuFind (dsuFind p a).2 b).1 hraroot hrbroot
    have hndp : (pkeys (dsuFind (dsuFind p a).2 b).2).Nodup := by
      rw [hfb4, hfa4]; exact hWF.1
    have hnd : (pkeys (recSet (dsuFind (dsuFind p a).2 b).2
        (dsuFind (dsuFind p a).2 b).1 (dsuFind p a).1)).Nodup := by
      rw [pkeys_recSet_eq]
      split
      · exact hndp
      · rename_i hnotmem
        refine List.Nodup.append hndp (List.nodup_singleton _) ?_
        intro x hx hx2
        simp only [List.mem_singleton] at hx2
        subst hx2
        exact hnotmem hx
    have hwfu : DSUWF (recSet (dsuFind (dsuFind p a).2 b).2
        (dsuFind (dsuFind p a).2 b).1 (dsuFind p a).1) := by
      refine wf_from_roots _ hnd ?_
      intro x _
      exact ⟨_, hlink x _ (rootR_rootOf _ hfb3 x)⟩
    refine ⟨hwfu, ?_⟩
    have hca := hlink a _ hq2a
    have hcb := hlink b _ hq2b
    have hrane : rootOf p a ≠ (dsuFind (dsuFind p a).2 b).1 := by
      rw [← hfa1]; exact hne
    rw [if_neg hrane] at hca
    rw [if_pos hfb1.symm] at hcb
    rw [rootOf_eq _ hwfu a _ hca, rootOf_eq _ hwfu b _ hcb]
    exact hfa1.symm
  · rw [hu, if_neg hne]
    push_neg at hne
    refine ⟨hfb3, ?_⟩
    rw [rootOf_eq _ hfb3 a _ hq2a, rootOf_eq _ hfb3 b _ hq2b]
    rw [← hfa1, hne, hfb1]

/-- C9: after `union(a, b)` the (mutating, path-compressing) calls
`find(a)` then `find(b)` report the same root; and a `find(z)` call's
path compression never changes any element's reported set membership:
`find` reports `rootOf`, and the compressed record's `rootOf` relation
is pointwise unchanged. -/
theorem dsuUnionFindClaims (p : List (String × String)) (hWF : DSUWF p) (a b z : String) :
    (dsuFind (dsuUnion p a b) a).1 = (dsuFind (dsuFind (dsuUnion p a b) a).2 b).1
    ∧ (dsuFind p z).1 = rootOf p z
    ∧ (∀ x y, rootOf (dsuFind p z).2 x = rootOf (dsuFind p z).2 y
        ↔ rootOf p x = rootOf p y) := by
  obtain ⟨hwfu, hroots⟩ := dsuUnion_spec p hWF a b
  obtain ⟨ha1, ha2, ha3, _⟩ := dsuFind_spec (dsuUnion p a b) hwfu a
  obtain ⟨hb1, hb2, hb3, _⟩ := dsuFind_spec (dsuFind (dsuUnion p a b) a).2 ha3 b
  obtain ⟨hz1, hz2, hz3, _⟩ := dsuFind_spec p hWF z
  refine ⟨?_, hz1, ?_⟩
  · rw [ha1, hb1, ha2 b, hroots]
  · intro x y
    rw [hz2 x, hz2 y]

/-- Witness for C9 on the three-element DisjointSet
`new DisjointSet(['A','B','C'])` with `union('A','B')` and `find('C')`. -/
theorem dsuUnionFindClaims_witness :
    (dsuFind (dsuUnion (dsuInit ["A", "B", "C"]) "A" "B") "A").1
        = (dsuFind (dsuFind (dsuUnion (dsuInit ["A", "B", "C"]) "A" "B") "A").2 "B").1
    ∧ (dsuFind (dsuInit ["A", "B", "C"]) "C").1 = rootOf (dsuInit ["A", "B", "C"]) "C"
    ∧ (∀ x y, rootOf (dsuFind (dsuInit ["A", "B", "C"]) "C").2 x
          = rootOf (dsuFind (dsuInit ["A", "B", "C"]) "C").2 y
        ↔ rootOf (dsuInit ["A", "B", "C"]) x = rootOf (dsuInit ["A", "B", "C"]) y) :=
  dsuUnionFindClaims (dsuInit ["A", "B", "C"]) (by decide) "A" "B" "C"

/-! ## Kruskal (`kruskal.ts`) and Prim (`prims.ts`) on the shared
comparison sample (`mst-comparison`, `src/unnamed/part_015`) -/

/-- The shared 6-node weighted graph both MST generators are run on in
the Prim-vs-Kruskal comparison (weights 4, 2, 1, 5, 3, 6, 1). -/
def cmpGraphData : GraphData :=
  { nodes := [⟨"A", 100, 200⟩, ⟨"B", 250, 100⟩, ⟨"C", 250, 300⟩,
              ⟨"D", 450, 100⟩, ⟨"E", 450, 300⟩, ⟨"F", 600, 200⟩],
    adj := [("A", ["B", "C"]), ("B", ["A", "D", "C"]), ("C", ["A", "B", "E"]),
            ("D", ["B", "F"]), ("E", ["C", "F"]), ("F", ["D", "E"])],
    edges := [⟨"A", "B", 4⟩, ⟨"A", "C", 2⟩, ⟨"B", "C", 1⟩, ⟨"B", "D", 5⟩,
              ⟨"C", "E", 3⟩, ⟨"D", "F", 6⟩, ⟨"E", "F", 1⟩] }

/-- Lexicographic comparison of character lists by code unit (JS's
default string comparison; spelled out because Mathlib's `String`
order instance does not reduce in the kernel). -/
def charListLt : List Char → List Char → Bool
  | [], [] => false
  | [], _ :: _ => true
  | _ :: _, [] => false
  | a :: as, b :: bs =>
    if a.toNat < b.toNat then true
    else if b.toNat < a.toNat then false
    else charListLt as bs

/-- JS `a < b` on strings. -/
def jsStrLt (a b : String) : Bool := charListLt a.data b.data

/-- `getEdgeKey`: `[edge.from, edge.to].sort().join('-')` (JS default
sort is lexicographic on the strings; a two-element sort swaps exactly
when the second sorts before the first). -/
def getEdgeKey (e : GEdge) : String :=
  if jsStrLt e.dst e.src then e.dst ++ "-" ++ e.src else e.src ++ "-" ++ e.dst

/-- One emitted `Step` of the Kruskal generator. -/
structure KruStep where
  dataStructure : List String
  visited : List String
  currentNode : Option String
  neighbor : Option String
  description : String
  nodeSets : List (String × String)
  highlightedEdge : Option GEdge := none
  mstEdges : List String
deriving DecidableEq, Repr

instance : Inhabited KruStep :=
  ⟨{ dataStructure := [], visited := [], currentNode := none, neighbor := none,
     description := "", nodeSets := [], mstEdges := [] }⟩

/-- The edge list rendered as `dataStructure` strings. -/
def kruEdgeStrings (sortedEdges : List GEdge) : List String :=
  sortedEdges.map (fun e => e.src ++ "-" ++ e.dst ++ " (" ++ toString e.weight ++ ")")

/-- Loop body of the Kruskal generator: one sorted edge per round; both
the `!==`-comparison finds and `union` mutate the DSU, and `getSets`
(used for every Step's coloring snapshot) compresses paths as well. -/
def kruLoop (sortedEdges : List GEdge) :
    List GEdge → List (String × String) → List String → List KruStep →
    (List (String × String) × List String × List KruStep)
  | [], dsu, mstEdges, steps => (dsu, mstEdges, steps)
  | e :: rest, dsu, mstEdges, steps =>
    let g1 := dsuGetSets dsu
    let steps := steps ++
      [{ dataStructure := kruEdgeStrings sortedEdges, visited := [], currentNode := none,
         neighbor := none,
         description := "Considering edge " ++ e.src ++ "-" ++ e.dst ++
           " with weight " ++ toString e.weight ++ ".",
         nodeSets := g1.1, highlightedEdge := some e, mstEdges := mstEdges }]
    let f1 := dsuFind g1.2 e.src
    let f2 := dsuFind f1.2 e.dst
    if f1.1 ≠ f2.1 then
      let dsu' := dsuUnion f2.2 e.src e.dst
      let mstEdges' := if getEdgeKey e ∈ mstEdges then mstEdges else mstEdges ++ [getEdgeKey e]
      let g2 := dsuGetSets dsu'
      let steps := steps ++
        [{ dataStructure := kruEdgeStrings sortedEdges, visited := [], currentNode := none,
           neighbor := none,
           description := "No cycle formed. Add " ++ e.src ++ "-" ++ e.dst ++
             " to MST and union their sets.",
           nodeSets := g2.1, highlightedEdge := some e, mstEdges := mstEdges' }]
      kruLoop sortedEdges rest g2.2 mstEdges' steps
    else
      let g2 := dsuGetSets f2.2
      let steps := steps ++
        [{ dataStructure := kruEdgeStrings sortedEdges, visited := [], currentNode := none,
           neighbor := none,
           description := "Edge " ++ e.src ++ "-" ++ e.dst ++ " would form a cycle. Discard it.",
           nodeSets := g2.1, highlightedEdge := some e, mstEdges := mstEdges }]
      kruLoop sortedEdges rest g2.2 mstEdges steps

/-- `generateSteps` of `kruskal.ts`. -/
def kruGenerateSteps (g : GraphData) : List KruStep :=
  let sortedEdges := jsSortByPriority (fun e => e.weight) g.edges
  let dsu := dsuInit (g.nodes.map (fun n => n.id))
  let g0 := dsuGetSets dsu
  let steps : List KruStep :=
    [{ dataStructure := kruEdgeStrings sortedEdges, visited := [], currentNode := none,
       neighbor := none,
       description := "Start with all nodes in their own set. Sort all edges by weight.",
       nodeSets := g0.1, mstEdges := [] }]
  match kruLoop sortedEdges sortedEdges g0.2 [] steps with
  | (dsu', mstEdges, steps) =>
    let gf := dsuGetSets dsu'
    steps ++
      [{ dataStructure := kruEdgeStrings sortedEdges, visited := [], currentNode := none,
         neighbor := none,
         description := "Finished. Minimum Spanning Tree is complete.",
         nodeSets := gf.1, mstEdges := mstEdges }]

/-- One emitted `Step` of the Prim generator. -/
structure PrimStep where
  description : String
  currentNode : Option String
  highlightedEdge : Option GEdge := none
  dataStructure : List String
  visited : List String
  mstEdges : List String
deriving DecidableEq, Repr

instance : Inhabited PrimStep :=
  ⟨{ description := "", currentNode := none, dataStructure := [],
     visited := [], mstEdges := [] }⟩

/-- `PriorityQueue.toStringArray` for a queue of `Edge` objects: JS
string interpolation renders each edge object as `[object Object]`. -/
def pqEdgeStrings (pq : List (GEdge × Int)) : List String :=
  pq.map (fun it => "[object Object](" ++ toString it.2 ++ ")")

/-- `addEdges` of `prims.ts`: mark the node visited and enqueue every
incident edge found in the edge list. -/
def primAddEdges (g : GraphData) (nodeId : String)
    (visited : List String) (pq : List (GEdge × Int)) :
    List String × List (GEdge × Int) :=
  let visited' := setAdd visited nodeId
  let pq' := (adjGet g nodeId).foldl
    (fun pq neighborId =>
      match g.edges.find? (fun e =>
        (e.src = nodeId ∧ e.dst = neighborId) ∨ (e.src = neighborId ∧ e.dst = nodeId)) with
      | some e => pqEnqueue pq e e.weight
      | none => pq)
    pq
  (visited', pq')

/-- Outer loop of the Prim generator
(`while (!pq.isEmpty() && visited.size < graph.nodes.length)`). -/
def primLoop (g : GraphData) :
    Nat → List (GEdge × Int) → List String → List String → List PrimStep →
    (List String × List String × List PrimStep)
  | 0, _, visited, mstEdges, steps => (visited, mstEdges, steps)
  | _ + 1, [], visited, mstEdges, steps => (visited, mstEdges, steps)
  | fuel + 1, (e, _) :: pqrest, visited, mstEdges, steps =>
    if visited.length < g.nodes.length then
      let steps := steps ++
        [{ description := "Extract edge " ++ e.src ++ "-" ++ e.dst ++ " (weight " ++
             toString e.weight ++ ") from PQ.",
           currentNode := none, highlightedEdge := some e,
           dataStructure := pqEdgeStrings pqrest, visited := visited, mstEdges := mstEdges }]
      let fromVisited := e.src ∈ visited
      let toVisited := e.dst ∈ visited
      if fromVisited ∧ toVisited then
        let steps := steps ++
          [{ description := "Both nodes are already in the MST. Discard edge.",
             currentNode := none, highlightedEdge := some e,
             dataStructure := pqEdgeStrings pqrest, visited := visited, mstEdges := mstEdges }]
        primLoop g fuel pqrest visited mstEdges steps
      else
        let mstEdges' := if getEdgeKey e ∈ mstEdges then mstEdges else mstEdges ++ [getEdgeKey e]
        let newNode := if fromVisited then e.dst else e.src
        let steps := steps ++
          [{ description := "Add edge " ++ e.src ++ "-" ++ e.dst ++
               " to the MST. Visit new node " ++ newNode ++ ".",
             currentNode := some newNode, highlightedEdge := some e,
             dataStructure := pqEdgeStrings pqrest, visited := visited, mstEdges := mstEdges' }]
        match primAddEdges g newNode visited pqrest with
        | (visited', pq') =>
          let steps := steps ++
            [{ description := "Add all new edges from " ++ newNode ++ " to the priority queue.",
               currentNode := some newNode,
               dataStructure := pqEdgeStrings pq', visited := visited', mstEdges := mstEdges' }]
          primLoop g fuel pq' visited' mstEdges' steps
    else (visited, mstEdges, steps)

/-- `generateSteps` of `prims.ts` (fuel 50 is ample for the sample). -/
def primGenerateSteps (g : GraphData) (startNode : String) : List PrimStep :=
  let steps : List PrimStep :=
    [{ description := "Start Prim's algorithm from node " ++ startNode ++ ".",
       currentNode := some startNode, dataStructure := [], visited := [], mstEdges := [] }]
  match primAddEdges g startNode [] [] with
  | (visited, pq) =>
    let steps := steps ++
      [{ description := "Add all edges from " ++ startNode ++ " to the priority queue.",
         currentNode := some startNode, dataStructure := pqEdgeStrings pq,
         visited := visited, mstEdges := [] }]
    match primLoop g 50 pq visited [] steps with
    | (visited, mstEdges, steps) =>
      steps ++
        [{ description := "Algorithm complete. Minimum Spanning Tree found.",
           currentNode := none, dataStructure := [], visited := visited,
           mstEdges := mstEdges }]

/-- The two comparison runs of `mst-comparison`:
`generatePrimsSteps(graphData, 'A')` and `generateKruskalsSteps(graphData)`. -/
def primCmpSteps : List PrimStep := primGenerateSteps cmpGraphData "A"

def kruCmpSteps : List KruStep := kruGenerateSteps cmpGraphData

/-- Total weight of an MST edge-key set against the graph's edge list. -/
def mstTotalWeight (g : GraphData) (keySet : List String) : Int :=
  ((g.edges.filter (fun e => getEdgeKey e ∈ keySet)).map (fun e => e.weight)).sum

/-- Does the edge subset connect all the graph's nodes? (reference
definition for the spec's "minimum spanning tree weight"). -/
def reachIterUndir (es : List GEdge) (nodes : List String) : Nat → List String → List String
  | 0, r => r
  | k + 1, r =>
    reachIterUndir es nodes k
      (nodes.foldl (fun acc v =>
        if v ∈ acc then acc
        else if es.any (fun e =>
          (e.src = v ∧ e.dst ∈ acc) ∨ (e.dst = v ∧ e.src ∈ acc))
        then acc ++ [v] else acc) r)

def spansAll (nodes : List String) (es : List GEdge) : Bool :=
  match nodes with
  | [] => true
  | h :: _ =>
    let reach := reachIterUndir es nodes nodes.length [h]
    nodes.all (fun v => decide (v ∈ reach))

/-- Minimum total weight over all spanning (connected) edge subsets:
with positive weights this is exactly the minimum spanning tree weight
(reference definition following the spec's words). -/
def specMinSpanningWeight (g : GraphData) : Int :=
  listMinD
    (((g.edges.sublists).filter (fun es => spansAll (g.nodes.map (fun n => n.id)) es)).map
      (fun es => (es.map (fun e => e.weight)).sum))
    ((g.edges.map (fun e => e.weight)).sum)

/-- C8: on the shared 6-node comparison sample, Prim's and Kruskal's
final MST edge sets have equal total weight (12), and that total equals
the graph's minimum spanning tree weight computed by brute force over
all spanning edge subsets. -/
theorem mstEquivalence :
    mstTotalWeight cmpGraphData ((primCmpSteps.getLastD default).mstEdges)
      = mstTotalWeight cmpGraphData ((kruCmpSteps.getLastD default).mstEdges)
    ∧ mstTotalWeight cmpGraphData ((primCmpSteps.getLastD default).mstEdges)
      = specMinSpanningWeight cmpGraphData
    ∧ mstTotalWeight cmpGraphData ((primCmpSteps.getLastD default).mstEdges) = 12 := by
  decide

/-! ## Karger's min-cut (`src/unnamed/part_013`)

The generator deep-copies `nodes`/`edges` per Step (`JSON.parse(JSON.stringify(...))`)
but snapshots `supernodes` with a shallow `{ ...supernodes }`: the record
of bindings is copied while the per-node member *arrays* stay shared.
We model the arrays as a heap (`store`) addressed by indices, a Step
holding the copied binding record (`supernodeRefs`). The content a Step
shows at any time is its bindings materialized over the store at that
time; `emissions` records each Step's content at its emission instant
(a specification-level observation, not stored by the JS code).
`Math.floor(Math.random() * edges.length)` is modelled by an arbitrary
choice function `f : Nat → Nat` taken modulo the current edge count —
every sequence of in-range random draws is realized by some `f`.
(One further shared reference, `highlightedEdge`, is modelled by value;
it is not needed by any claim.) -/

/-- The module's 5-node sample graph. -/
def kargerGraphData : GraphData :=
  { nodes := [⟨"A", 150, 100⟩, ⟨"B", 350, 100⟩, ⟨"C", 150, 300⟩,
              ⟨"D", 350, 300⟩, ⟨"E", 250, 200⟩],
    adj := [("A", ["B", "C", "E"]), ("B", ["A", "D", "E"]), ("C", ["A", "D", "E"]),
            ("D", ["B", "C", "E"]), ("E", ["A", "B", "C", "D"])],
    edges := [⟨"A", "B", 1⟩, ⟨"A", "C", 3⟩, ⟨"A", "E", 2⟩, ⟨"B", "D", 2⟩,
              ⟨"B", "E", 4⟩, ⟨"C", "D", 1⟩, ⟨"C", "E", 5⟩, ⟨"D", "E", 3⟩] }

/-- One emitted `Step` of the Karger generator. -/
structure KStep where
  description : String
  currentNode : Option String := none
  highlightedEdge : Option GEdge := none
  gNodes : List GNode
  gEdges : List GEdge
  supernodeRefs : List (String × Nat)
  dataStructure : List String
deriving DecidableEq, Repr

instance : Inhabited KStep :=
  ⟨{ description := "", gNodes := [], gEdges := [], supernodeRefs := [],
     dataStructure := [] }⟩

/-- Materialize a supernode binding record over a store: what the
snapshot displays when the store has the given contents. -/
def kMaterialize (store : List (List String)) (refs : List (String × Nat)) :
    List (String × List String) :=
  refs.map (fun kv => (kv.1, store.getD kv.2 []))

/-- Full working state of one Karger run. -/
structure KargerState where
  nodes : List GNode
  edges : List GEdge
  store : List (List String)
  superRefs : List (String × Nat)
  steps : List KStep
  emissions : List (List (String × List String))
  contractions : Nat
deriving Repr

/-- `createStep` of the Karger generator: deep-copies nodes/edges,
shallow-copies the supernode record; also records the emission-time
materialization. -/
def kCreateStep (s : KargerState) (desc : String) (he : Option GEdge) : KargerState :=
  { s with
    steps := s.steps ++
      [{ description := desc, highlightedEdge := he, gNodes := s.nodes,
         gEdges := s.edges, supernodeRefs := s.superRefs,
         dataStructure := [toString s.nodes.length] }],
    emissions := s.emissions ++ [kMaterialize s.store s.superRefs] }

/-- One round of the contraction loop: pick an edge, contract it
(merge `to` into `from`, mutating the shared member array in place,
deleting `to`'s binding, renaming edge endpoints, dropping self-loops). -/
def kargerContract (f : Nat → Nat) (round : Nat) (s : KargerState) : KargerState :=
  let idx := f round % s.edges.length
  let e := s.edges.getD idx ⟨"", "", 0⟩
  let s1 := kCreateStep s
    ("Randomly select edge " ++ e.src ++ "-" ++ e.dst ++ " to contract.") (some e)
  let u := e.src
  let v := e.dst
  let nodes' := s1.nodes.filter (fun n => n.id ≠ v)
  let store' :=
    match recGet? s1.superRefs u, recGet? s1.superRefs v with
    | some ui, some vi => s1.store.set ui (s1.store.getD ui [] ++ s1.store.getD vi [])
    | _, _ => s1.store
  let superRefs' := recDel s1.superRefs v
  let edges' := (s1.edges.map (fun e2 =>
      { e2 with src := if e2.src = v then u else e2.src,
                dst := if e2.dst = v then u else e2.dst })).filter
    (fun e2 => e2.src ≠ e2.dst)
  let s2 :=
    { s1 with
      nodes := nodes'
      edges := edges'
      store := store'
      superRefs := superRefs'
      contractions := s1.contractions + 1 }
  kCreateStep s2
    ("Merge " ++ v ++ " into " ++ u ++ ". The new supernode is [" ++
      String.intercalate ", "
        (match recGet? superRefs' u with
         | some ui => store'.getD ui []
         | none => []) ++ "].") (some e)

/-- The `while (nodes.length > 2 && edges.length > 0)` loop. -/
def kargerLoop (f : Nat → Nat) : Nat → Nat → KargerState → KargerState
  | 0, _, s => s
  | fuel + 1, round, s =>
    if 2 < s.nodes.length ∧ 0 < s.edges.length then
      kargerLoop f fuel (round + 1) (kargerContract f round s)
    else s

/-- The run's state after the deep copies, the supernode
initialization, and the initial "Start" Step. -/
def kargerInitState : KargerState :=
  kCreateStep
    { nodes := kargerGraphData.nodes, edges := kargerGraphData.edges,
      store := kargerGraphData.nodes.map (fun n => [n.id]),
      superRefs := kargerGraphData.nodes.enum.map (fun p => (p.2.id, p.1)),
      steps := [], emissions := [], contractions := 0 }
    "Start with the original undirected graph." none

/-- `generateSteps` of the Karger module (it reads the module's own
`graphData`; fuel 10 exceeds the possible 3 rounds). -/
def kargerRun (f : Nat → Nat) : KargerState :=
  let s := kargerLoop f 10 0 kargerInitState
  let cutValue := (s.edges.map (fun e => e.weight)).sum
  kCreateStep s
    ("Contraction complete. The cut has a value of " ++ toString cutValue ++ ".")
    s.edges.head?

/-- C2 (code bug, evaluated at the failing input): with the choice
sequence that always contracts the first remaining edge, the second
emitted Step (index 1, "Randomly select edge A-B") shows supernode
content `A ↦ [A]` at emission time, but after the generator's later
in-place `supernodes[u].push(...)` mutations the same Step's shallow
snapshot reads `A ↦ [A, B, C, E]`: an already-appended Step changed. -/
theorem kargerStepSnapshotMutates :
    (kargerRun (fun _ => 0)).emissions.getD 1 []
      ≠ kMaterialize (kargerRun (fun _ => 0)).store
          (((kargerRun (fun _ => 0)).steps.getD 1 default).supernodeRefs) := by
  decide

/-! ### C10: exactly `|V| - 2` contractions for every choice sequence

The invariant: node ids are distinct, edges join two distinct existing
nodes, and some hub node is adjacent to every other node (true of the
sample, where `E` is the hub, and preserved by contraction), so the
edge list cannot empty out while more than two nodes remain. -/

/-- The node ids of a Karger working state. -/
def kIds (nodes : List GNode) : List String := nodes.map (fun n => n.id)

/-- Some edge joins `x` and `y` (in either orientation). -/
def KBtw (edges : List GEdge) (x y : String) : Prop :=
  ∃ e ∈ edges, (e.src = x ∧ e.dst = y) ∨ (e.src = y ∧ e.dst = x)

instance (edges : List GEdge) (x y : String) : Decidable (KBtw edges x y) := by
  unfold KBtw; infer_instance

/-- Contraction-loop invariant. -/
def KInv (nodes : List GNode) (edges : List GEdge) : Prop :=
  (kIds nodes).Nodup
  ∧ (∀ e ∈ edges, e.src ≠ e.dst ∧ e.src ∈ kIds nodes ∧ e.dst ∈ kIds nodes)
  ∧ ∃ h ∈ kIds nodes, ∀ x ∈ kIds nodes, x ≠ h → KBtw edges x h

instance (nodes : List GNode) (edges : List GEdge) : Decidable (KInv nodes edges) := by
  unfold KInv; infer_instance

theorem filter_ne_length (l : List String) (hnd : l.Nodup) (v : String) (hv : v ∈ l) :
    (l.filter (fun x => x ≠ v)).length + 1 = l.length := by
  induction l with
  | nil => cases hv
  | cons a as ih =>
    rw [List.nodup_cons] at hnd
    by_cases ha : a = v
    · subst ha
      have hfe : as.filter (fun x => x ≠ a) = as := by
        apply List.filter_eq_self.mpr
        intro x hx
        simp only [decide_eq_true_eq]
        intro hc; subst hc; exact hnd.1 hx
      simp [List.filter_cons, hfe]
      intro x hx hc
      subst hc
      exact hnd.1 hx
    · have hv' : v ∈ as := by
        rcases List.mem_cons.mp hv with h | h
        · exact absurd h.symm ha
        · exact h
      have := ih hnd.2 hv'
      simp only [List.filter_cons, decide_eq_true_eq]
      rw [if_pos ha]
      simp only [List.length_cons]
      omega

theorem kIds_filter (nodes : List GNode) (v : String) :
    kIds (nodes.filter (fun n => n.id ≠ v)) = (kIds nodes).filter (fun x => x ≠ v) := by
  induction nodes with
  | nil => rfl
  | cons n ns ih =>
    by_cases h : n.id = v
    · simp [kIds, List.filter_cons, h] at ih ⊢
      exact ih
    · simp [kIds, List.filter_cons, h] at ih ⊢
      exact ih

theorem getD_mem_of_lt (l : List GEdge) (i : Nat) (d : GEdge) (h : i < l.length) :
    l.getD i d ∈ l := by
  induction l generalizing i with
  | nil => simp at h
  | cons e es ih =>
    cases i with
    | zero => exact List.mem_cons_self _ _
    | succ i =>
      simp only [List.length_cons] at h
      exact List.mem_cons_of_mem _ (ih i (by omega))

theorem kargerContract_spec (f : Nat → Nat) (round : Nat) (s : KargerState)
    (hInv : KInv s.nodes s.edges) (he : 0 < s.edges.length) :
    KInv (kargerContract f round s).nodes (kargerContract f round s).edges
    ∧ (kargerContract f round s).nodes.length + 1 = s.nodes.length
    ∧ (kargerContract f round s).steps.length = s.steps.length + 2
    ∧ (kargerContract f round s).contractions = s.contractions + 1 := by
  have hpn : (kargerContract f round s).nodes
      = s.nodes.filter (fun n =>
          n.id ≠ (s.edges.getD (f round % s.edges.length) ⟨"", "", 0⟩).dst) := rfl
  have hpe : (kargerContract f round s).edges
      = (s.edges.map (fun e2 =>
          { e2 with
            src := if e2.src = (s.edges.getD (f round % s.edges.length) ⟨"", "", 0⟩).dst
                   then (s.edges.getD (f round % s.edges.length) ⟨"", "", 0⟩).src else e2.src,
            dst := if e2.dst = (s.edges.getD (f round % s.edges.length) ⟨"", "", 0⟩).dst
                   then (s.edges.getD (f round % s.edges.length) ⟨"", "", 0⟩).src else e2.dst })).filter
        (fun e2 => e2.src ≠ e2.dst) := rfl
  have hsteps : (kargerContract f round s).steps.length = s.steps.length + 2 := by
    simp [kargerContract, kCreateStep]
  have hcontr : (kargerContract f round s).contractions = s.contractions + 1 := rfl
  have hemem : s.edges.getD (f round % s.edges.length) ⟨"", "", 0⟩ ∈ s.edges :=
    getD_mem_of_lt _ _ _ (Nat.mod_lt _ he)
  obtain ⟨hne, hu, hv⟩ := hInv.2.1 _ hemem
  set e := s.edges.getD (f round % s.edges.length) ⟨"", "", 0⟩ with hedef
  have hrenmem : ∀ x : String, x ∈ kIds s.nodes →
      (if x = e.dst then e.src else x) ∈ (kIds s.nodes).filter (fun y => y ≠ e.dst) := by
    intro x hx
    by_cases hc : x = e.dst
    · rw [if_pos hc]
      exact List.mem_filter.mpr ⟨hu, by simpa using hne⟩
    · rw [if_neg hc]
      exact List.mem_filter.mpr ⟨hx, by simpa using hc⟩
  refine ⟨?_, ?_, hsteps, hcontr⟩
  · rw [hpn, hpe]
    refine ⟨?_, ?_, ?_⟩
    · rw [kIds_filter]
      exact hInv.1.filter _
    · intro e' he'
      rcases List.mem_filter.mp he' with ⟨hmap, hpred⟩
      obtain ⟨e₀, he₀, hren⟩ := List.mem_map.mp hmap
      obtain ⟨h0ne, h0u, h0v⟩ := hInv.2.1 e₀ he₀
      refine ⟨by simpa using hpred, ?_, ?_⟩
      · rw [kIds_filter, ← hren]
        exact hrenmem e₀.src h0u
      · rw [kIds_filter, ← hren]
        exact hrenmem e₀.dst h0v
    · obtain ⟨h, hh, hhub⟩ := hInv.2.2
      refine ⟨if h = e.dst then e.src else h, ?_, ?_⟩
      · rw [kIds_filter]
        exact hrenmem h hh
      · intro x hx hxh
        rw [kIds_filter] at hx
        rcases List.mem_filter.mp hx with ⟨hxids, hxvb⟩
        have hxv : x ≠ e.dst := by simpa using hxvb
        have hxh0 : x ≠ h := by
          by_cases hhv : h = e.dst
          · rw [hhv]; exact hxv
          · rwa [if_neg hhv] at hxh
        obtain ⟨e₀, he₀, hor⟩ := hhub x hxids hxh0
        have hmem' : ∀ e2 : GEdge, e2 ∈ s.edges →
            ({ e2 with
               src := if e2.src = e.dst then e.src else e2.src,
               dst := if e2.dst = e.dst then e.src else e2.dst } : GEdge)
              ∈ s.edges.map (fun e2 =>
                { e2 with
                  src := if e2.src = e.dst then e.src else e2.src,
                  dst := if e2.dst = e.dst then e.src else e2.dst }) := by
          intro e2 h2
          exact List.mem_map_of_mem _ h2
        rcases hor with ⟨hsrc, hdst⟩ | ⟨hsrc, hdst⟩
        · refine ⟨{ e₀ with
              src := if e₀.src = e.dst then e.src else e₀.src,
              dst := if e₀.dst = e.dst then e.src else e₀.dst }, ?_, ?_⟩
          · refine List.mem_filter.mpr ⟨hmem' e₀ he₀, ?_⟩
            simp only [hsrc, hdst, if_neg hxv, decide_eq_true_eq]
            exact hxh
          · left
            constructor
            · simp [hsrc, if_neg hxv]
            · simp [hdst]
        · refine ⟨{ e₀ with
              src := if e₀.src = e.dst then e.src else e₀.src,
              dst := if e₀.dst = e.dst then e.src else e₀.dst }, ?_, ?_⟩
          · refine List.mem_filter.mpr ⟨hmem' e₀ he₀, ?_⟩
            simp only [hsrc, hdst, if_neg hxv, decide_eq_true_eq]
            intro hc
            exact hxh hc.symm
          · right
            constructor
            · simp [hsrc]
            · simp [hdst, if_neg hxv]
  · rw [hpn]
    have hlm : (s.nodes.filter (fun n => n.id ≠ e.dst)).length
        = (kIds (s.nodes.filter (fun n => n.id ≠ e.dst))).length := by
      unfold kIds; rw [List.length_map]
    rw [hlm, kIds_filter]
    have := filter_ne_length (kIds s.nodes) hInv.1 e.dst hv
    have hlen : (kIds s.nodes).length = s.nodes.length := by
      unfold kIds; rw [List.length_map]
    omega

theorem KInv_edges_nonempty (nodes : List GNode) (edges : List GEdge)
    (hInv : KInv nodes edges) (hn : 2 ≤ nodes.length) : 0 < edges.length := by
  obtain ⟨h, hh, hhub⟩ := hInv.2.2
  have hlen : 2 ≤ (kIds nodes).length := by
    unfold kIds; rw [List.length_map]; exact hn
  obtain ⟨a, b, tl, hab⟩ : ∃ a b tl, kIds nodes = a :: b :: tl := by
    cases hids : kIds nodes with
    | nil => rw [hids] at hlen; simp at hlen
    | cons a tl =>
      cases tl with
      | nil => rw [hids] at hlen; simp at hlen
      | cons b tl2 => exact ⟨a, b, tl2, rfl⟩
  have hnd := hInv.1
  rw [hab] at hnd
  have habne : a ≠ b := by
    rw [List.nodup_cons] at hnd
    intro hc
    exact hnd.1 (hc ▸ List.mem_cons_self _ _)
  have hax : ∃ x ∈ kIds nodes, x ≠ h := by
    by_cases hahy : a = h
    · exact ⟨b, by rw [hab]; exact List.mem_cons_of_mem _ (List.mem_cons_self _ _),
        fun hc => habne (by rw [hahy, hc])⟩
    · exact ⟨a, by rw [hab]; exact List.mem_cons_self _ _, hahy⟩
  obtain ⟨x, hx, hxh⟩ := hax
  obtain ⟨e₀, he₀, _⟩ := hhub x hx hxh
  exact List.length_pos.mpr (List.ne_nil_of_mem he₀)

theorem kargerLoop_spec (f : Nat → Nat) :
    ∀ (fuel round : Nat) (s : KargerState), KInv s.nodes s.edges →
      s.nodes.length ≤ fuel + 2 →
      (kargerLoop f fuel round s).contractions = s.contractions + (s.nodes.length - 2)
      ∧ (kargerLoop f fuel round s).steps.length
          = s.steps.length + 2 * (s.nodes.length - 2) := by
  intro fuel
  induction fuel with
  | zero =>
    intro round s hInv hle
    have : s.nodes.length - 2 = 0 := by omega
    rw [this]
    exact ⟨by simp [kargerLoop], by simp [kargerLoop]⟩
  | succ fuel ih =>
    intro round s hInv hle
    by_cases hg : 2 < s.nodes.length ∧ 0 < s.edges.length
    · rw [kargerLoop, if_pos hg]
      obtain ⟨hInv', hlen', hsteps', hcontr'⟩ := kargerContract_spec f round s hInv hg.2
      have hle' : (kargerContract f round s).nodes.length ≤ fuel + 2 := by omega
      obtain ⟨hc, hs⟩ := ih (round + 1) (kargerContract f round s) hInv' hle'
      constructor
      · rw [hc, hcontr']
        omega
      · rw [hs, hsteps']
        omega
    · rw [kargerLoop, if_neg hg]
      have hsmall : s.nodes.length ≤ 2 := by
        by_contra hbig
        push_neg at hbig
        exact hg ⟨hbig, KInv_edges_nonempty s.nodes s.edges hInv (by omega)⟩
      have : s.nodes.length - 2 = 0 := by omega
      rw [this]
      exact ⟨by omega, by omega⟩

/-- C10: for every sequence of random edge choices, the Karger generator
on its 5-node sample performs exactly `|V| - 2 = 3` contractions before
halting and emits a trace of exactly 8 Steps, so any two runs produce
traces of the same length regardless of the random outcomes. -/
theorem kargerSampleShape (f g : Nat → Nat) :
    (kargerRun f).contractions = 3
    ∧ (kargerRun f).steps.length = 8
    ∧ (kargerRun f).steps.length = (kargerRun g).steps.length := by
  suffices h : ∀ f' : Nat → Nat,
      (kargerRun f').contractions = 3 ∧ (kargerRun f').steps.length = 8 by
    exact ⟨(h f).1, (h f).2, by rw [(h f).2, (h g).2]⟩
  intro f'
  have hInv : KInv kargerInitState.nodes kargerInitState.edges := by decide
  have hbound : kargerInitState.nodes.length ≤ 10 + 2 := by decide
  obtain ⟨hc, hs⟩ := kargerLoop_spec f' 10 0 kargerInitState hInv hbound
  have hrc : (kargerRun f').contractions = (kargerLoop f' 10 0 kargerInitState).contractions := rfl
  have hrs : (kargerRun f').steps.length
      = (kargerLoop f' 10 0 kargerInitState).steps.length + 1 := by
    simp [kargerRun, kCreateStep]
  constructor
  · rw [hrc, hc]; decide
  · rw [hrs, hs]; decide

/-! ## D'Esopo-Pape (`desopo-pape.ts`)

A label-correcting deque algorithm; its own module description notes it
handles negative edge weights "(but not negative cycles)". On a finite
cyclic graph with a negative cycle the `while (deque.length > 0)` loop
never exits, refuting the spec's blanket termination claim. -/

/-- One emitted `Step` of the D'Esopo-Pape generator. -/
structure DppStep where
  description : String
  currentNode : Option String
  neighbor : Option String := none
  distances : List (String × DVal)
  highlightedEdge : Option GEdge := none
  dataStructure : List String
deriving DecidableEq, Repr

/-- Working state of the D'Esopo-Pape loop (`nodeStatus`: 0 never in
deque, 1 was in deque, 2 currently in deque). -/
structure DppState where
  distances : List (String × DVal)
  deque : List String
  nodeStatus : List (String × Nat)
  steps : List DppStep
deriving Repr

/-- Inner neighbor-relaxation loop of `desopo-pape.ts` (the `edge!`
lookup's missing-edge default weight 0 is never used on graphs whose
adjacency pairs all carry edges). -/
def dppRelax (g : GraphData) (u : String) : List String → DppState → DppState
  | [], s => s
  | v :: vs, s =>
    let found := g.edges.find? (fun e2 => e2.src = u ∧ e2.dst = v)
    let w := match found with
      | some e2 => e2.weight
      | none => 0
    let newDist := dvalToInt (recGetD s.distances u DVal.inf) + w
    let improves :=
      match recGetD s.distances v DVal.inf with
      | DVal.inf => true
      | DVal.fin old => decide (newDist < old)
    if improves then
      let distances' := recSet s.distances v (DVal.fin newDist)
      let st := recGetD s.nodeStatus v 0
      let deque' := if st = 0 then s.deque ++ [v] else if st = 1 then v :: s.deque else s.deque
      let status' := if st = 0 ∨ st = 1 then recSet s.nodeStatus v 2 else s.nodeStatus
      let desc := "Updated distance of " ++ v ++ " to " ++ toString newDist ++ ". " ++
        (if st = 0 then "It's new, add to BACK."
         else if st = 1 then "It's been seen, add to FRONT." else "")
      let s' : DppState :=
        { distances := distances', deque := deque', nodeStatus := status',
          steps := s.steps ++
            [{ description := desc, currentNode := some u, neighbor := some v,
               distances := distances', highlightedEdge := found,
               dataStructure := deque' }] }
      dppRelax g u vs s'
    else dppRelax g u vs s

/-- One iteration of the outer `while (deque.length > 0)` loop. -/
def dppBody (g : GraphData) (s : DppState) : DppState :=
  match s.deque with
  | [] => s
  | u :: rest =>
    let s1 : DppState :=
      { distances := s.distances, deque := rest,
        nodeStatus := recSet s.nodeStatus u 1,
        steps := s.steps ++
          [{ description := "Process node " ++ u ++ " from the front of the deque.",
             currentNode := some u, distances := s.distances, dataStructure := rest }] }
    dppRelax g u (adjGet g u) s1

/-- The fuelled outer loop: `none` means the deque was still non-empty
when the fuel ran out. -/
def dppLoop (g : GraphData) : Nat → DppState → Option DppState
  | 0, s => if s.deque.isEmpty then some s else none
  | fuel + 1, s => if s.deque.isEmpty then some s else dppLoop g fuel (dppBody g s)

/-- The initialized state of a D'Esopo-Pape run (distances all `'∞'`
except the start at 0, the start alone in the deque with status 2, and
the initialization Step emitted). -/
def dppInitState (g : GraphData) (startNode : String) : DppState :=
  let distances := recSet (g.nodes.foldl (fun r n => recSet r n.id DVal.inf) []) startNode (DVal.fin 0)
  let nodeStatus := recSet (g.nodes.foldl (fun r n => recSet r n.id 0) []) startNode 2
  { distances := distances, deque := [startNode], nodeStatus := nodeStatus,
    steps := [{ description := "Initialize. Add start node " ++ startNode ++
                  " to the back of the deque.",
                currentNode := some startNode, distances := distances,
                dataStructure := [startNode] }] }

/-- `generateSteps` of `desopo-pape.ts`, with explicit fuel: the JS loop
terminates exactly when some finite fuel suffices. -/
def dppGenerateSteps (g : GraphData) (startNode : String) (fuel : Nat) :
    Option (List DppStep) :=
  match dppLoop g fuel (dppInitState g startNode) with
  | some s =>
    some (s.steps ++
      [{ description := "Algorithm complete. Deque is empty.", currentNode := none,
         distances := s.distances, dataStructure := [] }])
  | none => none

/-- A finite directed graph with a cycle of total weight `-2`
(well-formed `GraphData`: all adjacency entries exist in `nodes` and
carry edges). -/
def negCycleGraphData : GraphData :=
  { nodes := [⟨"A", 100, 100⟩, ⟨"B", 300, 100⟩],
    adj := [("A", ["B"]), ("B", ["A"])],
    edges := [⟨"A", "B", -1⟩, ⟨"B", "A", -1⟩],
    directed := true }

/-- The loop invariant on the negative cycle: the deque forever holds
exactly the node whose relaxation will next improve the other one. -/
def DppNegInv (s : DppState) : Prop :=
  (∃ d : Int, s.distances = [("A", DVal.fin (d - 1)), ("B", DVal.fin d)]
    ∧ s.deque = ["A"] ∧ s.nodeStatus = [("A", 2), ("B", 1)])
  ∨ (∃ d : Int, s.distances = [("A", DVal.fin d), ("B", DVal.fin (d - 1))]
    ∧ s.deque = ["B"] ∧ s.nodeStatus = [("A", 1), ("B", 2)])

theorem dppBody_negA (d : Int) (stps : List DppStep) :
    (dppBody negCycleGraphData
      { distances := [("A", DVal.fin (d - 1)), ("B", DVal.fin d)],
        deque := ["A"], nodeStatus := [("A", 2), ("B", 1)], steps := stps }).distances
        = [("A", DVal.fin (d - 1)), ("B", DVal.fin (d - 1 - 1))]
    ∧ (dppBody negCycleGraphData
      { distances := [("A", DVal.fin (d - 1)), ("B", DVal.fin d)],
        deque := ["A"], nodeStatus := [("A", 2), ("B", 1)], steps := stps }).deque = ["B"]
    ∧ (dppBody negCycleGraphData
      { distances := [("A", DVal.fin (d - 1)), ("B", DVal.fin d)],
        deque := ["A"], nodeStatus := [("A", 2), ("B", 1)], steps := stps }).nodeStatus
        = [("A", 1), ("B", 2)] := by
  have hlt : (d - 1 + -1 : Int) < d := by omega
  have hlt2 : (d - 1 : Int) < d + 1 := by omega
  refine ⟨?_, ?_, ?_⟩ <;>
    simp [dppBody, dppRelax, adjGet, recGetD, recGet?, recSet, dvalToInt,
      negCycleGraphData, List.find?, decide_eq_true hlt, hlt2]
  all_goals omega

theorem dppBody_negB (d : Int) (stps : List DppStep) :
    (dppBody negCycleGraphData
      { distances := [("A", DVal.fin d), ("B", DVal.fin (d - 1))],
        deque := ["B"], nodeStatus := [("A", 1), ("B", 2)], steps := stps }).distances
        = [("A", DVal.fin (d - 1 - 1)), ("B", DVal.fin (d - 1))]
    ∧ (dppBody negCycleGraphData
      { distances := [("A", DVal.fin d), ("B", DVal.fin (d - 1))],
        deque := ["B"], nodeStatus := [("A", 1), ("B", 2)], steps := stps }).deque = ["A"]
    ∧ (dppBody negCycleGraphData
      { distances := [("A", DVal.fin d), ("B", DVal.fin (d - 1))],
        deque := ["B"], nodeStatus := [("A", 1), ("B", 2)], steps := stps }).nodeStatus
        = [("A", 2), ("B", 1)] := by
  have hlt : (d - 1 + -1 : Int) < d := by omega
  have hlt2 : (d - 1 : Int) < d + 1 := by omega
  refine ⟨?_, ?_, ?_⟩ <;>
    simp [dppBody, dppRelax, adjGet, recGetD, recGet?, recSet, dvalToInt,
      negCycleGraphData, List.find?, decide_eq_true hlt, hlt2]
  all_goals omega

theorem dppBody_neg_inv (s : DppState) (h : DppNegInv s) :
    DppNegInv (dppBody negCycleGraphData s) := by
  obtain ⟨dist, dq, st, stps⟩ := s
  rcases h with ⟨d, hd, hq, hs⟩ | ⟨d, hd, hq, hs⟩ <;>
    simp only at hd hq hs <;> subst hd <;> subst hq <;> subst hs
  · right
    refine ⟨d - 1, ?_, ?_, ?_⟩
    · have := (dppBody_negA d stps).1
      rw [this]
    · exact (dppBody_negA d stps).2.1
    · exact (dppBody_negA d stps).2.2
  · left
    refine ⟨d - 1, ?_, ?_, ?_⟩
    · have := (dppBody_negB d stps).1
      rw [this]
    · exact (dppBody_negB d stps).2.1
    · exact (dppBody_negB d stps).2.2

theorem dppLoop_neg_none :
    ∀ (fuel : Nat) (s : DppState), DppNegInv s →
      dppLoop negCycleGraphData fuel s = none := by
  intro fuel
  induction fuel with
  | zero =>
    intro s h
    have hne : s.deque ≠ [] := by
      rcases h with ⟨d, _, hq, _⟩ | ⟨d, _, hq, _⟩ <;> rw [hq] <;> simp
    simp [dppLoop, List.isEmpty_iff, hne]
  | succ fuel ih =>
    intro s h
    have hne : s.deque ≠ [] := by
      rcases h with ⟨d, _, hq, _⟩ | ⟨d, _, hq, _⟩ <;> rw [hq] <;> simp
    rw [dppLoop]
    rw [if_neg (by simpa [List.isEmpty_iff] using hne)]
    exact ih _ (dppBody_neg_inv s h)

/-- C3 (counterexample): on a finite two-node graph containing a
(negative-weight) cycle, the D'Esopo-Pape generator never terminates —
no fuel suffices for its outer loop to exit — so `generate` returns no
Step array at all, contradicting the claim that every generator
terminates on every finite graph containing cycles. -/
theorem dppNegCycleDiverges :
    ¬ ∃ fuel : Nat, (dppGenerateSteps negCycleGraphData "A" fuel).isSome := by
  rintro ⟨fuel, hsome⟩
  have hinit : DppNegInv (dppBody negCycleGraphData (dppInitState negCycleGraphData "A")) := by
    right
    refine ⟨0, ?_, ?_, ?_⟩ <;>
      simp [dppInitState, dppBody, dppRelax, adjGet, recGetD, recGet?, recSet,
        dvalToInt, negCycleGraphData, List.find?]
  have hne : ¬ (dppInitState negCycleGraphData "A").deque.isEmpty = true := by
    simp [dppInitState]
  have hnone : dppLoop negCycleGraphData fuel (dppInitState negCycleGraphData "A") = none := by
    cases fuel with
    | zero => rw [dppLoop, if_neg hne]
    | succ fuel =>
      rw [dppLoop, if_neg hne]
      exact dppLoop_neg_none fuel _ hinit
  unfold dppGenerateSteps at hsome
  rw [hnone] at hsome
  simp at hsome

end GraphLab

